import Mathlib

/-!
Verification development for the synaptic8 package-manager core
(src/core.rs, src/apt.rs, src/types.rs).

The Rust core is shallowly embedded:

* `PackageId` is a `Nat` (the `u32` index into the handle registry;
  realistic values never approach `2 ^ 32`, and the sentinel
  `u32::MAX` is the explicit constant `u32MAX`).
* The rust-apt `Cache` is modelled by `AptCacheM`: a list of packages
  (`PkgData`, the per-package data the core reads through rust-apt),
  a per-package mark vector (`marks`), the handle registry
  (`id_to_fullname`; the sibling `fullname_to_id` hash map of the
  source is always kept in sync with it, so lookups in it are
  modelled by `idxOfStr`), and the external dependency solver
  `resolveFn` (an arbitrary function: `resolve()` may rewrite the
  native marks and report an error string).
* Native marks: in apt a package's dep-cache mode is one of
  keep / install / delete, so `marked_install` and `marked_delete`
  are mutually exclusive; `marked_upgrade` holds for an installed
  package in install mode.  This is captured by `Option AptMark`.
* `HashMap<PackageId, UserIntent>` is modelled by an association list
  with HashMap semantics (`lookupIntent` / `insertIntent` /
  `eraseIntent` / `containsIntent`).
-/

namespace Synaptic

/-- What the user explicitly wants for a package (types.rs `UserIntent`). -/
inductive UserIntent
  | Default
  | Install
  | Remove
  | Hold
deriving DecidableEq

/-- Why a package is changing (types.rs `ChangeReason`). -/
inductive ChangeReason
  | UserRequested
  | Dependency
  | AutoRemove
deriving DecidableEq

/-- Type of change to a package (types.rs `ChangeAction`). -/
inductive ChangeAction
  | Install
  | Upgrade
  | Remove
  | Downgrade
deriving DecidableEq

/-- A computed change from the plan (types.rs `PlannedChange`). -/
structure PlannedChange where
  package : Nat
  action : ChangeAction
  reason : ChangeReason
  download_size : Nat
  size_change : Int
deriving DecidableEq

/-- The user-intent store: association list with HashMap semantics. -/
abbrev Intent := List (Nat × UserIntent)

/-- HashMap lookup. -/
def lookupIntent (l : Intent) (k : Nat) : Option UserIntent :=
  (l.find? (fun e => e.1 == k)).map (fun e => e.2)

/-- HashMap `contains_key`. -/
def containsIntent (l : Intent) (k : Nat) : Bool :=
  l.any (fun e => e.1 == k)

/-- HashMap `insert` (replace value if the key is present, else add). -/
def insertIntent (l : Intent) (k : Nat) (v : UserIntent) : Intent :=
  if containsIntent l k then l.map (fun e => if e.1 == k then (k, v) else e)
  else l ++ [(k, v)]

/-- HashMap `remove`. -/
def eraseIntent (l : Intent) (k : Nat) : Intent :=
  l.filter (fun e => e.1 != k)

/-- The keys of the intent store are pairwise distinct (a HashMap invariant). -/
def NodupKeys (l : Intent) : Prop :=
  (l.map (fun e => e.1)).Nodup

/-- The native per-package mark state of apt's dep cache: a package is
in keep mode (no entry), install mode, or delete mode. -/
inductive AptMark
  | install
  | delete
deriving DecidableEq

/-- Per-package data the core reads through rust-apt.  `candidate` is
`(size, installed_size)` of the candidate version (`none` when the
package has no candidate); `deps` are the candidate's dependencies as
`(dep_type, target base name)` pairs. -/
structure PkgData where
  fullname : String
  sectionName : String
  installed_version : String
  candidate_version : String
  is_installed : Bool
  is_upgradable : Bool
  candidate : Option (Nat × Nat)
  deps : List (String × String)
deriving DecidableEq

/-- Index of the first occurrence of a string (models the
`fullname_to_id` HashMap lookup, which is kept in sync with
`id_to_fullname`). -/
def idxOfStr (fn : String) : List String → Option Nat
  | [] => none
  | s :: rest => if s == fn then some 0 else (idxOfStr fn rest).map (· + 1)

/-- Index of the first package with the given fullname (models
`cache.get(name)` resolving to a cache position). -/
def findPkgIdx (name : String) : List PkgData → Option Nat
  | [] => none
  | p :: rest => if p.fullname == name then some 0 else (findPkgIdx name rest).map (· + 1)

/-- The model of apt.rs `AptCache`: package list, handle registry,
native mark vector (parallel to `pkgs`), and the external solver. -/
structure AptCacheM where
  pkgs : List PkgData
  id_to_fullname : List String
  marks : List (Option AptMark)
  resolveFn : List (Option AptMark) → List (Option AptMark) × Option String

/-- apt.rs `AptCache::new`: pre-populate one id per package fullname. -/
def AptCacheM.new (pkgs : List PkgData)
    (resolveFn : List (Option AptMark) → List (Option AptMark) × Option String) : AptCacheM :=
  { pkgs := pkgs
    id_to_fullname := pkgs.map (fun p => p.fullname)
    marks := pkgs.map (fun _ => none)
    resolveFn := resolveFn }

/-- apt.rs `fullname_of`. -/
def AptCacheM.fullname_of (c : AptCacheM) (id : Nat) : Option String :=
  c.id_to_fullname.get? id

/-- apt.rs `get_id`. -/
def AptCacheM.get_id (c : AptCacheM) (fn : String) : Option Nat :=
  idxOfStr fn c.id_to_fullname

/-- apt.rs `id_for`: look up or append a fresh id. -/
def AptCacheM.id_for (c : AptCacheM) (fn : String) : AptCacheM × Nat :=
  match idxOfStr fn c.id_to_fullname with
  | some id => (c, id)
  | none => ({ c with id_to_fullname := c.id_to_fullname ++ [fn] }, c.id_to_fullname.length)

/-- Position in the cache of the package a name resolves to. -/
def AptCacheM.pkgIdx (c : AptCacheM) (name : String) : Option Nat :=
  findPkgIdx name c.pkgs

/-- apt.rs `cache.get(name)` (the core only calls it with fullnames). -/
def AptCacheM.getPkg (c : AptCacheM) (name : String) : Option PkgData :=
  c.pkgs.find? (fun p => p.fullname == name)

/-- The native mark of the package at cache position `j`. -/
def AptCacheM.pkgMark (c : AptCacheM) (j : Nat) : Option AptMark :=
  c.marks.getD j none

/-- Set the native mark of the package `name` resolves to (no-op when
the name is unknown, as in apt.rs where `cache.get` returns `None`). -/
def AptCacheM.setMark (c : AptCacheM) (name : String) (m : Option AptMark) : AptCacheM :=
  match c.pkgIdx name with
  | some j => { c with marks := c.marks.set j m }
  | none => c

/-- apt.rs `mark_install` (by name). -/
def AptCacheM.mark_install (c : AptCacheM) (name : String) : AptCacheM :=
  c.setMark name (some AptMark.install)

/-- apt.rs `mark_delete` (by name). -/
def AptCacheM.mark_delete (c : AptCacheM) (name : String) : AptCacheM :=
  c.setMark name (some AptMark.delete)

/-- apt.rs `mark_keep` (by name): back to keep mode. -/
def AptCacheM.mark_keep (c : AptCacheM) (name : String) : AptCacheM :=
  c.setMark name none

/-- apt.rs `mark_install_id`. -/
def AptCacheM.mark_install_id (c : AptCacheM) (id : Nat) : AptCacheM :=
  match c.fullname_of id with
  | some n => c.mark_install n
  | none => c

/-- apt.rs `mark_delete_id`. -/
def AptCacheM.mark_delete_id (c : AptCacheM) (id : Nat) : AptCacheM :=
  match c.fullname_of id with
  | some n => c.mark_delete n
  | none => c

/-- apt.rs `mark_keep_id`. -/
def AptCacheM.mark_keep_id (c : AptCacheM) (id : Nat) : AptCacheM :=
  match c.fullname_of id with
  | some n => c.mark_keep n
  | none => c

/-- apt.rs `clear_all_marks`: every currently changing package is set
back to keep mode, i.e. the whole mark vector becomes `none`. -/
def AptCacheM.clear_all_marks (c : AptCacheM) : AptCacheM :=
  { c with marks := c.marks.map (fun _ => none) }

/-- apt.rs `get_changes`: the packages holding an active mark. -/
def AptCacheM.get_changes (c : AptCacheM) : List (PkgData × AptMark) :=
  c.pkgs.enum.filterMap (fun jp => (c.pkgMark jp.1).map (fun m => (jp.2, m)))

/-- rust-apt `marked_install` for a changing package. -/
def markedInstallB (m : AptMark) : Bool := m == AptMark.install

/-- rust-apt `marked_upgrade`: an installed package in install mode. -/
def markedUpgradeB (m : AptMark) (is_installed : Bool) : Bool :=
  (m == AptMark.install) && is_installed

/-- rust-apt `marked_delete`. -/
def markedDeleteB (m : AptMark) : Bool := m == AptMark.delete

/-- One element of the `change_data` vector collected by core.rs
`plan()` before the classification loop. -/
structure ChangeEntry where
  fullname : String
  is_installed : Bool
  marked_install : Bool
  marked_upgrade : Bool
  marked_delete : Bool
  candidate_info : Option (Nat × Nat)
deriving DecidableEq

/-- core.rs `plan()` step 4a: collect the package data of all changes. -/
def changeData (c : AptCacheM) : List ChangeEntry :=
  c.get_changes.map (fun pm =>
    { fullname := pm.1.fullname
      is_installed := pm.1.is_installed
      marked_install := markedInstallB pm.2
      marked_upgrade := markedUpgradeB pm.2 pm.1.is_installed
      marked_delete := markedDeleteB pm.2
      candidate_info := pm.1.candidate })

/-- core.rs `plan()` classification (lines 233-254): action and reason
for one change entry, `none` when no mark matches (`continue`). -/
def classify (is_installed marked_install marked_upgrade marked_delete
    is_user_requested : Bool) : Option (ChangeAction × ChangeReason) :=
  if marked_install || marked_upgrade then
    some ((if is_installed then ChangeAction.Upgrade else ChangeAction.Install),
          (if is_user_requested then ChangeReason.UserRequested else ChangeReason.Dependency))
  else if marked_delete then
    some (ChangeAction.Remove,
          (if is_user_requested then ChangeReason.UserRequested else ChangeReason.AutoRemove))
  else none

/-- core.rs `plan()` lines 256-265: download size and size change of
one entry, from its candidate info. -/
def changeSizes (candidate_info : Option (Nat × Nat)) (action : ChangeAction) : Nat × Int :=
  match candidate_info with
  | some di => (di.1, if action == ChangeAction.Remove then -(di.2 : Int) else (di.2 : Int))
  | none => (0, 0)

/-- The state payload of the Planned typestate (types.rs `Planned`). -/
structure PlannedPayload where
  changes : List PlannedChange
  download_size : Nat
  install_size_change : Int
  errors : List String
deriving DecidableEq

/-- core.rs `plan()` step 2: apply every user intent as a native mark
(the HashMap iteration order is the list order here). -/
def applyUserIntent (c : AptCacheM) (intent : Intent) : AptCacheM :=
  intent.foldl
    (fun cc e =>
      match e.2 with
      | UserIntent.Install => cc.mark_install_id e.1
      | UserIntent.Remove => cc.mark_delete_id e.1
      | UserIntent.Hold => cc.mark_keep_id e.1
      | UserIntent.Default => cc)
    c

/-- The cache after `plan()` steps 1-3: marks cleared, intent applied,
solver run. -/
def resolvedCache (c : AptCacheM) (intent : Intent) : AptCacheM :=
  let c1 := applyUserIntent c.clear_all_marks intent
  { c1 with marks := (c1.resolveFn c1.marks).1 }

/-- The error list recorded by `plan()` step 3. -/
def resolveErrors (c : AptCacheM) (intent : Intent) : List String :=
  let c1 := applyUserIntent c.clear_all_marks intent
  match (c1.resolveFn c1.marks).2 with
  | none => []
  | some e => [e]

/-- core.rs `plan()` step 4b: the classification loop.  Returns the
cache (whose registry `id_for` may extend), the changes, and the two
running totals. -/
def planLoop (c : AptCacheM) (intent : Intent) :
    List ChangeEntry → AptCacheM × List PlannedChange × Nat × Int
  | [] => (c, [], 0, 0)
  | e :: rest =>
    match c.id_for e.fullname with
    | (c1, id) =>
      match classify e.is_installed e.marked_install e.marked_upgrade e.marked_delete
          (containsIntent intent id) with
      | none => planLoop c1 intent rest
      | some ar =>
        match changeSizes e.candidate_info ar.1, planLoop c1 intent rest with
        | (dl, sz), (c2, cs, dtot, stot) =>
          (c2,
           { package := id, action := ar.1, reason := ar.2,
             download_size := dl, size_change := sz } :: cs,
           dl + dtot, sz + stot)

/-- core.rs `PackageManager::<Dirty>::plan` acting on the cache: the
full pipeline, returning the updated cache and the Planned payload. -/
def planFromCache (c : AptCacheM) (intent : Intent) : AptCacheM × PlannedPayload :=
  match planLoop (resolvedCache c intent) intent (changeData (resolvedCache c intent)) with
  | (c3, cs, dtot, stot) =>
    (c3, { changes := cs, download_size := dtot, install_size_change := stot,
           errors := resolveErrors c intent })

/-- Display status of a listed package (types.rs `PackageStatus`). -/
inductive PackageStatus
  | Installed
  | NotInstalled
  | Upgradable
  | MarkedForInstall
  | MarkedForUpgrade
  | MarkedForRemove
  | Keep
  | Broken
deriving DecidableEq

/-- types.rs `PackageStatus::is_marked`. -/
def PackageStatus.is_marked : PackageStatus → Bool
  | PackageStatus.MarkedForInstall => true
  | PackageStatus.MarkedForUpgrade => true
  | PackageStatus.MarkedForRemove => true
  | _ => false

/-- Filter categories of the left panel (types.rs `FilterCategory`). -/
inductive FilterCategory
  | Upgradable
  | MarkedChanges
  | Installed
  | NotInstalled
  | All
deriving DecidableEq

/-- Sort options (types.rs `SortBy`). -/
inductive SortBy
  | Name
  | Section
  | InstalledVersion
  | CandidateVersion
deriving DecidableEq

/-- A row of the list projection (types.rs `PackageInfo`; the
`description` and `architecture` fields are display-only strings never
read by the core logic and are omitted). -/
structure PackageInfo where
  id : Nat
  name : String
  status : PackageStatus
  sectionName : String
  installed_version : String
  candidate_version : String
  installed_size : Nat
  download_size : Nat
deriving DecidableEq

/-- The `u32::MAX` sentinel used by apt.rs `extract_package_info` when
a fullname is not in the registry. -/
def u32MAX : Nat := 4294967295

/-- apt.rs `extract_package_info`: base status, ignoring marks. -/
def baseStatus (p : PkgData) : PackageStatus :=
  if p.is_installed then
    (if p.is_upgradable then PackageStatus.Upgradable else PackageStatus.Installed)
  else PackageStatus.NotInstalled

/-- apt.rs `extract_package_info` (requires a candidate version). -/
def AptCacheM.extract_package_info (c : AptCacheM) (p : PkgData) : Option PackageInfo :=
  p.candidate.map (fun di =>
    { id := (c.get_id p.fullname).getD u32MAX
      name := p.fullname
      status := baseStatus p
      sectionName := p.sectionName
      installed_version := p.installed_version
      candidate_version := p.candidate_version
      installed_size := di.2
      download_size := di.1 })

/-- apt.rs `extract_package_info_by_name`. -/
def AptCacheM.extract_package_info_by_name (c : AptCacheM) (name : String) :
    Option PackageInfo :=
  (c.getPkg name).bind (fun p => c.extract_package_info p)

/-- core.rs `rebuild_list` status overlay from user intent. -/
def overlayIntent (intent : Intent) (info : PackageInfo) : PackageInfo :=
  match lookupIntent intent info.id with
  | some UserIntent.Install =>
      { info with status := if info.status == PackageStatus.Upgradable
          then PackageStatus.MarkedForUpgrade else PackageStatus.MarkedForInstall }
  | some UserIntent.Remove => { info with status := PackageStatus.MarkedForRemove }
  | some UserIntent.Hold => { info with status := PackageStatus.Keep }
  | some UserIntent.Default => info
  | none => info

/-- rust-apt `marked_install` reading of an optional mark. -/
def optMarkedInstall (m : Option AptMark) : Bool :=
  match m with
  | some mm => markedInstallB mm
  | none => false

/-- rust-apt `marked_upgrade` reading of an optional mark. -/
def optMarkedUpgrade (m : Option AptMark) (is_installed : Bool) : Bool :=
  match m with
  | some mm => markedUpgradeB mm is_installed
  | none => false

/-- rust-apt `marked_delete` reading of an optional mark. -/
def optMarkedDelete (m : Option AptMark) : Bool :=
  match m with
  | some mm => markedDeleteB mm
  | none => false

/-- rust-apt `Package::name()`: the fullname without its arch part. -/
def baseName (fn : String) : String :=
  (fn.splitOn ":").headD fn

/-- core.rs `rebuild_list` category filter for the package at cache
position `j` (lines 477-490). -/
def matchesCategory (c : AptCacheM) (intent : Intent) (filter : FilterCategory)
    (j : Nat) (p : PkgData) : Bool :=
  match filter with
  | FilterCategory.Upgradable => p.is_upgradable
  | FilterCategory.MarkedChanges =>
      (match c.get_id p.fullname with
       | some id => containsIntent intent id
       | none => false)
      || optMarkedInstall (c.pkgMark j)
      || optMarkedUpgrade (c.pkgMark j) p.is_installed
      || optMarkedDelete (c.pkgMark j)
  | FilterCategory.Installed => p.is_installed
  | FilterCategory.NotInstalled => !p.is_installed
  | FilterCategory.All => true

/-- core.rs `rebuild_list` search filter (matches the base name). -/
def matchesSearch (searchResults : Option (List String)) (p : PkgData) : Bool :=
  match searchResults with
  | some rs => rs.contains (baseName p.fullname)
  | none => true

/-- core.rs `rebuild_list` first and second pass: collect matching
fullnames, then extract rows and overlay intent (the column-width
accumulation of the same pass is display-only and omitted). -/
def rebuildRows (c : AptCacheM) (intent : Intent) (filter : FilterCategory)
    (searchResults : Option (List String)) : List PackageInfo :=
  let iter := if filter == FilterCategory.Upgradable
    then c.pkgs.enum.filter (fun jp => jp.2.is_upgradable)
    else c.pkgs.enum
  let matching := (iter.filter (fun jp =>
      matchesCategory c intent filter jp.1 jp.2 && matchesSearch searchResults jp.2)).map
      (fun jp => jp.2.fullname)
  matching.filterMap (fun fn =>
    (c.extract_package_info_by_name fn).map (fun info => overlayIntent intent info))

/-- core.rs `sort_list` comparator. -/
def rowOrd (sb : SortBy) (a b : PackageInfo) : Ordering :=
  match sb with
  | SortBy.Name => compare a.name b.name
  | SortBy.Section => compare a.sectionName b.sectionName
  | SortBy.InstalledVersion => compare a.installed_version b.installed_version
  | SortBy.CandidateVersion => compare a.candidate_version b.candidate_version

/-- core.rs `sort_list`: stable sort by the configured key and
direction (Rust `sort_by` is stable, as is insertion sort). -/
def sortRows (sb : SortBy) (asc : Bool) (l : List PackageInfo) : List PackageInfo :=
  l.insertionSort (fun a b =>
    (if asc then rowOrd sb a b else (rowOrd sb a b).swap) ≠ Ordering.gt)

/-- The shared state of core.rs `SharedState` (the search index object
is reduced to the fact of its existence, `searchIndexBuilt`). -/
structure Shared where
  cache : AptCacheM
  user_intent : Intent
  searchIndexBuilt : Bool
  searchQuery : String
  searchResults : Option (List String)
  list : List PackageInfo
  upgradable_count : Nat
  installed_count : Nat
  total_count : Nat
  selected_filter : FilterCategory
  sort_by : SortBy
  sort_ascending : Bool

/-- core.rs `compute_cache_counts` (the loop counts exactly these). -/
def Shared.compute_cache_counts (sh : Shared) : Shared :=
  { sh with
    total_count := sh.cache.pkgs.length
    installed_count := (sh.cache.pkgs.filter (fun p => p.is_installed)).length
    upgradable_count := (sh.cache.pkgs.filter (fun p => p.is_installed && p.is_upgradable)).length }

/-- core.rs `PackageManager::rebuild_list` effect on the shared state. -/
def Shared.rebuild_list (sh : Shared) : Shared :=
  { sh with list := sortRows sh.sort_by sh.sort_ascending (rebuildRows sh.cache sh.user_intent sh.selected_filter sh.searchResults) }

/-- core.rs `apply_planned_statuses` change map (HashMap collect from
the changes: for duplicate ids the last entry wins). -/
def changeMapLookup (changes : List PlannedChange) (id : Nat) : Option ChangeAction :=
  (changes.reverse.find? (fun ch => ch.package == id)).map (fun ch => ch.action)

/-- core.rs `apply_planned_statuses` status for one action. -/
def actionStatus (a : ChangeAction) : PackageStatus :=
  match a with
  | ChangeAction.Install => PackageStatus.MarkedForInstall
  | ChangeAction.Upgrade => PackageStatus.MarkedForUpgrade
  | ChangeAction.Remove => PackageStatus.MarkedForRemove
  | ChangeAction.Downgrade => PackageStatus.MarkedForUpgrade

/-- core.rs `apply_planned_statuses`. -/
def applyPlannedStatuses (p : PlannedPayload) (l : List PackageInfo) : List PackageInfo :=
  l.map (fun info =>
    match changeMapLookup p.changes info.id with
    | some a => { info with status := actionStatus a }
    | none => info)

/-- Result of toggling a package (types.rs `ToggleResult`; the
`NoChange` variant is the one constructed at core.rs line 1134 and
consumed in bin/debug_cli.rs). -/
inductive ToggleResult
  | Marked (package : Nat) (additional : List Nat)
  | Unmarked (package : Nat) (also_unmarked : List Nat)
  | NoChange (package : Nat)
deriving DecidableEq

/-- core.rs `ManagerState`: the wrapper enum over the typestates.  The
states carry the shared state; `transitioning` is the take-placeholder
(the source panics whenever it is observed; the model makes the
operations inert there). -/
inductive MState
  | clean (sh : Shared)
  | dirty (sh : Shared)
  | planned (sh : Shared) (p : PlannedPayload)
  | transitioning

/-- core.rs `is_clean`. -/
def MState.is_clean : MState → Bool
  | MState.clean _ => true
  | _ => false

/-- core.rs `is_dirty`. -/
def MState.is_dirty : MState → Bool
  | MState.dirty _ => true
  | _ => false

/-- core.rs `is_planned`. -/
def MState.is_planned : MState → Bool
  | MState.planned _ _ => true
  | _ => false

/-- core.rs `planned_changes`. -/
def MState.planned_changes : MState → Option (List PlannedChange)
  | MState.planned _ p => some p.changes
  | _ => none

/-- The intent store of the current variant (empty for the
unobservable placeholder). -/
def MState.intentOf : MState → Intent
  | MState.clean sh => sh.user_intent
  | MState.dirty sh => sh.user_intent
  | MState.planned sh _ => sh.user_intent
  | MState.transitioning => []

/-- The intent store as far as it is observable: `none` in the
`transitioning` placeholder, where every accessor of the source
panics. -/
def MState.intentOfObs : MState → Option Intent
  | MState.clean sh => some sh.user_intent
  | MState.dirty sh => some sh.user_intent
  | MState.planned sh _ => some sh.user_intent
  | MState.transitioning => none

/-- An inert cache value for the placeholder state. -/
def emptyCacheM : AptCacheM :=
  AptCacheM.new [] (fun m => (m, none))

/-- core.rs `cache()` accessor. -/
def MState.cacheOf : MState → AptCacheM
  | MState.clean sh => sh.cache
  | MState.dirty sh => sh.cache
  | MState.planned sh _ => sh.cache
  | MState.transitioning => emptyCacheM

/-- core.rs `list()` accessor. -/
def MState.listOf : MState → List PackageInfo
  | MState.clean sh => sh.list
  | MState.dirty sh => sh.list
  | MState.planned sh _ => sh.list
  | MState.transitioning => []

/-- core.rs `is_user_marked`. -/
def MState.is_user_marked (s : MState) (id : Nat) : Bool :=
  containsIntent s.intentOf id

/-- Apply a function to the shared state of whichever variant is
active (the per-variant match repeated all over core.rs). -/
def MState.mapShared (f : Shared → Shared) : MState → MState
  | MState.clean sh => MState.clean (f sh)
  | MState.dirty sh => MState.dirty (f sh)
  | MState.planned sh p => MState.planned (f sh) p
  | MState.transitioning => MState.transitioning

/-- Insert a user intent entry. -/
def Shared.insertMark (sh : Shared) (id : Nat) (v : UserIntent) : Shared :=
  { sh with user_intent := insertIntent sh.user_intent id v }

/-- core.rs `ManagerState::mark_install` (Planned goes through
`modify()`, dropping the payload). -/
def MState.mark_install (s : MState) (id : Nat) : MState :=
  match s with
  | MState.clean sh => MState.dirty (sh.insertMark id UserIntent.Install)
  | MState.dirty sh => MState.dirty (sh.insertMark id UserIntent.Install)
  | MState.planned sh _ => MState.dirty (sh.insertMark id UserIntent.Install)
  | MState.transitioning => MState.transitioning

/-- core.rs `ManagerState::mark_remove`. -/
def MState.mark_remove (s : MState) (id : Nat) : MState :=
  match s with
  | MState.clean sh => MState.dirty (sh.insertMark id UserIntent.Remove)
  | MState.dirty sh => MState.dirty (sh.insertMark id UserIntent.Remove)
  | MState.planned sh _ => MState.dirty (sh.insertMark id UserIntent.Remove)
  | MState.transitioning => MState.transitioning

/-- core.rs `ManagerState::unmark` (lines 1033-1044): early return when
the id is not user-marked; a Clean manager stays Clean, Dirty stays
Dirty, Planned drops its payload and becomes Dirty. -/
def MState.unmark (s : MState) (id : Nat) : MState :=
  if s.is_user_marked id then
    match s with
    | MState.clean sh => MState.clean sh
    | MState.dirty sh => MState.dirty { sh with user_intent := eraseIntent sh.user_intent id }
    | MState.planned sh _ => MState.dirty { sh with user_intent := eraseIntent sh.user_intent id }
    | MState.transitioning => MState.transitioning
  else s

/-- core.rs `PackageManager::<Dirty>::reset`. -/
def Shared.reset (sh : Shared) : Shared :=
  { sh with user_intent := [], cache := sh.cache.clear_all_marks }

/-- core.rs `ManagerState::reset`. -/
def MState.reset (s : MState) : MState :=
  match s with
  | MState.clean sh => MState.clean sh
  | MState.dirty sh => MState.clean sh.reset
  | MState.planned sh _ => MState.clean sh.reset
  | MState.transitioning => MState.transitioning

/-- core.rs `PackageManager::<Dirty>::plan` at the shared-state level. -/
def Shared.plan (sh : Shared) : Shared × PlannedPayload :=
  match planFromCache sh.cache sh.user_intent with
  | (c, p) => ({ sh with cache := c }, p)

/-- core.rs `ManagerState::compute_plan`: Clean stays Clean, Dirty
plans, Planned is left as is. -/
def MState.compute_plan (s : MState) : MState :=
  match s with
  | MState.clean sh => MState.clean sh
  | MState.dirty sh =>
      match sh.plan with
      | (sh2, p) => MState.planned sh2 p
  | MState.planned sh p => MState.planned sh p
  | MState.transitioning => MState.transitioning

/-- core.rs `ManagerState::rebuild_list` (lines 855-867): in the
Planned state the planned statuses are applied on top. -/
def MState.rebuild_list (s : MState) : MState :=
  match s with
  | MState.clean sh => MState.clean sh.rebuild_list
  | MState.dirty sh => MState.dirty sh.rebuild_list
  | MState.planned sh p =>
      match sh.rebuild_list with
      | sh2 => MState.planned { sh2 with list := applyPlannedStatuses p sh2.list } p
  | MState.transitioning => MState.transitioning

/-- core.rs `apply_filter` (sets the filter, then the PackageManager
level rebuild, which does not overlay planned statuses). -/
def MState.apply_filter (s : MState) (f : FilterCategory) : MState :=
  s.mapShared (fun sh => ({ sh with selected_filter := f }).rebuild_list)

/-- core.rs `sort_list` effect on the shared state. -/
def Shared.sort_list (sh : Shared) : Shared :=
  { sh with list := sortRows sh.sort_by sh.sort_ascending sh.list }

/-- core.rs `set_sort`. -/
def MState.set_sort (s : MState) (sb : SortBy) (asc : Bool) : MState :=
  s.mapShared (fun sh => ({ sh with sort_by := sb, sort_ascending := asc }).sort_list)

/-- core.rs `ensure_search_index` (the built index object itself is
external; the model records that it exists). -/
def MState.ensure_search_index (s : MState) : MState :=
  s.mapShared (fun sh => { sh with searchIndexBuilt := true })

/-- core.rs `set_search_query`: the query is always stored; the result
set is cleared for an empty query and replaced only when an index is
built (`found` stands for the external engine's answer). -/
def Shared.set_search_query (sh : Shared) (q : String) (found : List String) : Shared :=
  let sh1 := { sh with searchQuery := q }
  if q == "" then { sh1 with searchResults := none }
  else if sh1.searchIndexBuilt then { sh1 with searchResults := some found }
  else sh1

/-- core.rs `set_search_query` at the manager level. -/
def MState.set_search_query (s : MState) (q : String) (found : List String) : MState :=
  s.mapShared (fun sh => sh.set_search_query q found)

/-- core.rs `clear_search`. -/
def MState.clear_search (s : MState) : MState :=
  s.mapShared (fun sh => { sh with searchQuery := "", searchResults := none })

/-- core.rs `search_query_pop`. -/
def MState.search_query_pop (s : MState) : MState :=
  s.mapShared (fun sh => { sh with searchQuery := sh.searchQuery.dropRight 1 })

/-- core.rs `search_query_push`. -/
def MState.search_query_push (s : MState) (ch : Char) : MState :=
  s.mapShared (fun sh => { sh with searchQuery := sh.searchQuery.push ch })

/-- core.rs `update_cache_counts`. -/
def MState.update_cache_counts (s : MState) : MState :=
  s.mapShared Shared.compute_cache_counts

/-- apt.rs `AptCache::refresh`: the cache object is rebuilt from disk
(`newPkgs` is the new on-disk content, marks start fresh) while the id
mappings are kept. -/
def AptCacheM.refreshCache (c : AptCacheM) (newPkgs : List PkgData) : AptCacheM :=
  { c with pkgs := newPkgs, marks := newPkgs.map (fun _ => none) }

/-- core.rs `refresh` success path (lines 641-647): refresh the cache,
clear the user intent, drop the search index, query and results,
recompute the counts. -/
def Shared.refreshOk (sh : Shared) (newPkgs : List PkgData) : Shared :=
  ({ sh with cache := sh.cache.refreshCache newPkgs,
             user_intent := [],
             searchIndexBuilt := false,
             searchQuery := "",
             searchResults := none }).compute_cache_counts

/-- core.rs `refresh`: `ok = false` covers both the lock probe and the
cache error, which leave the state untouched and return the error. -/
def MState.refreshStep (s : MState) (ok : Bool) (newPkgs : List PkgData) : MState × Bool :=
  if ok then (s.mapShared (fun sh => sh.refreshOk newPkgs), true) else (s, false)

/-- core.rs `update_with_progress` (lines 651-667).  The cache-adapter
method it calls is absent from apt.rs here; its cache effect is
modelled from the spec: run the external apt update, then rebuild the
cache from disk, like `refresh`.  The core-side clearing of intent and
search state is from core.rs directly. -/
def MState.updateStep (s : MState) (ok : Bool) (newPkgs : List PkgData) : MState × Bool :=
  if ok then (s.mapShared (fun sh => sh.refreshOk newPkgs), true) else (s, false)

/-- core.rs `PackageManager::<Planned>::commit` success effects: the
cache object is replaced by a fresh one (apt.rs line 348, so the marks
are gone), the intent store is cleared, the search index dropped. -/
def Shared.commitSuccess (sh : Shared) : Shared :=
  { sh with cache := { sh.cache with marks := sh.cache.marks.map (fun _ => none) },
            user_intent := [],
            searchIndexBuilt := false }

/-- core.rs `ManagerState::commit` (lines 1237-1253): `std::mem::take`
leaves `Transitioning` in `self`; on a commit error the early return
happens before the reassignment, so `self` stays `Transitioning`.
`cacheOk` is the outcome of the underlying `cache.commit()`. -/
def MState.commitStep (s : MState) (cacheOk : Bool) : MState × Bool :=
  match s with
  | MState.clean sh => (MState.clean sh, true)
  | MState.dirty sh =>
      match sh.plan with
      | (sh2, _) =>
        if cacheOk then (MState.clean sh2.commitSuccess, true)
        else (MState.transitioning, false)
  | MState.planned sh _ =>
      if cacheOk then (MState.clean sh.commitSuccess, true)
      else (MState.transitioning, false)
  | MState.transitioning => (MState.transitioning, false)

/-- core.rs `filter_count` at the shared-state level (lines 959-965). -/
def filterCountOf (sh : Shared) (filter : FilterCategory) : Nat :=
  match filter with
  | FilterCategory.Upgradable => sh.upgradable_count
  | FilterCategory.MarkedChanges => sh.user_intent.length
  | FilterCategory.Installed => sh.installed_count
  | FilterCategory.NotInstalled => sh.total_count - sh.installed_count
  | FilterCategory.All => sh.total_count

/-- core.rs `ManagerState::filter_count`. -/
def MState.filter_count (s : MState) (filter : FilterCategory) : Nat :=
  match s with
  | MState.clean sh => filterCountOf sh filter
  | MState.dirty sh => filterCountOf sh filter
  | MState.planned sh _ => filterCountOf sh filter
  | MState.transitioning => 0

/-- core.rs `mark_all_upgradable`. -/
def MState.mark_all_upgradable (s : MState) : MState :=
  let c := s.cacheOf
  let ids := ((c.pkgs.filter (fun p => p.is_upgradable)).map (fun p => p.fullname)).filterMap
    (fun n => c.get_id n)
  ids.foldl (fun st id => st.mark_install id) s

/-- apt.rs `dep_type_order`. -/
def depTypeOrder (t : String) : Nat :=
  if t == "PreDepends" then 0
  else if t == "Depends" then 1
  else if t == "Recommends" then 2
  else if t == "Suggests" then 3
  else if t == "Enhances" then 4
  else 5

/-- apt.rs `get_dependencies` final sort (stable, by type order then
target name). -/
def sortDeps (deps : List (String × String)) : List (String × String) :=
  deps.insertionSort (fun a b =>
    ((compare (depTypeOrder a.1) (depTypeOrder b.1)).then (compare a.2 b.2)) ≠ Ordering.gt)

/-- apt.rs `get_dependencies`: the candidate's dependency pairs,
sorted; empty when the package or its candidate is missing. -/
def AptCacheM.get_dependencies (c : AptCacheM) (name : String) : List (String × String) :=
  match c.getPkg name with
  | none => []
  | some p => if p.candidate.isSome then sortDeps p.deps else []

/-- Fuel bound for the dependency walk: more than the number of nodes
the visited set can ever hold times the pushes per node. -/
def depFuel (c : AptCacheM) : Nat :=
  (c.id_to_fullname.length + 2) * (2 + c.pkgs.foldl (fun a p => a + p.deps.length) 0)
    + c.pkgs.length + 2

/-- core.rs `package_depends_on` worklist loop (Vec `pop` is LIFO, so
the worklist head is the top of the stack; pushes go to the front in
reverse, matching push order). -/
def dependsGo (c : AptCacheM) (target_base : String) :
    Nat → List String → List String → Bool
  | 0, _, _ => false
  | _ + 1, _, [] => false
  | fuel + 1, visited, cur :: rest =>
    if visited.contains cur then dependsGo c target_base fuel visited rest
    else
      let deps := (c.get_dependencies cur).filter
        (fun d => d.1 == "Depends" || d.1 == "PreDepends")
      if deps.any (fun d => d.2 == target_base) then true
      else
        let pushes := deps.filterMap (fun d =>
          (match c.get_id d.2 with
           | some i => some i
           | none => c.get_id (d.2 ++ ":amd64")).bind (fun did => c.fullname_of did))
        dependsGo c target_base fuel (cur :: visited)
          (pushes.foldl (fun acc n => n :: acc) rest)

/-- core.rs `package_depends_on`: does `pkg_name` transitively depend
on `target_base` through Depends/PreDepends edges? -/
def AptCacheM.package_depends_on (c : AptCacheM) (pkg_name target_base : String) : Bool :=
  dependsGo c target_base (depFuel c) [] [pkg_name]

/-- core.rs `find_user_intent_depending_on` (lines 1149-1170). -/
def MState.find_user_intent_depending_on (s : MState) (target_id : Nat) : List Nat :=
  let c := s.cacheOf
  match c.fullname_of target_id with
  | none => []
  | some tname =>
    (s.intentOf.map (fun e => e.1)).filter (fun iid =>
      match c.fullname_of iid with
      | some iname => c.package_depends_on iname (baseName tname)
      | none => false)

/-- The marked ids of a projection list (the HashSet snapshots the
toggle paths take; membership is all that is read from them). -/
def markedIdsOf (l : List PackageInfo) : List Nat :=
  (l.filter (fun p => p.status.is_marked)).map (fun p => p.id)

/-- core.rs `toggle` marked-state probe via the current list. -/
def rowMarked (l : List PackageInfo) (id : Nat) : Bool :=
  match l.find? (fun p => p.id == id) with
  | some p => p.status.is_marked
  | none => false

/-- core.rs `toggle_mark_impl`. -/
def MState.toggle_mark_impl (s : MState) (id : Nat) : MState × ToggleResult :=
  let before := markedIdsOf s.listOf
  let s1 := ((s.mark_install id).compute_plan).rebuild_list
  let newly := (s1.listOf.filter (fun p =>
      p.status.is_marked && !(before.contains p.id) && p.id != id)).map (fun p => p.id)
  (s1, ToggleResult.Marked id newly)

/-- core.rs `toggle_unmark` (lines 1097-1146). -/
def MState.toggle_unmark (s : MState) (id : Nat) : MState × ToggleResult :=
  let before := markedIdsOf s.listOf
  let to_remove := if s.is_user_marked id then [id] else s.find_user_intent_depending_on id
  let s1 := ((to_remove.foldl (fun st pid => st.unmark pid) s).compute_plan).rebuild_list
  let after := markedIdsOf s1.listOf
  if after.contains id then (s1, ToggleResult.NoChange id)
  else (s1, ToggleResult.Unmarked id
    (before.filter (fun pid => !(after.contains pid) && pid != id)))

/-- core.rs `toggle` (lines 1051-1069). -/
def MState.toggle (s : MState) (id : Nat) : MState × ToggleResult :=
  let s1 := (s.compute_plan).rebuild_list
  if rowMarked s1.listOf id then s1.toggle_unmark id else s1.toggle_mark_impl id

/-- The shared state right after `SharedState::new` (default filter is
Upgradable, default sort Name ascending). -/
def Shared.initial (pkgs : List PkgData)
    (resolveFn : List (Option AptMark) → List (Option AptMark) × Option String) : Shared :=
  { cache := AptCacheM.new pkgs resolveFn
    user_intent := []
    searchIndexBuilt := false
    searchQuery := ""
    searchResults := none
    list := []
    upgradable_count := 0
    installed_count := 0
    total_count := 0
    selected_filter := FilterCategory.Upgradable
    sort_by := SortBy.Name
    sort_ascending := true }

/-- core.rs `PackageManager::new` wrapped by `ManagerState::new`. -/
def MState.init (pkgs : List PkgData)
    (resolveFn : List (Option AptMark) → List (Option AptMark) × Option String) : MState :=
  MState.clean (((Shared.initial pkgs resolveFn).compute_cache_counts).rebuild_list)

/-- The user-facing operations of the manager (the API core.rs exposes
upward), with their external inputs as payload: the outcome of
fallible cache calls, the content of a reread cache, the external
search answer. -/
inductive Op
  | markInstallOp (id : Nat)
  | markRemoveOp (id : Nat)
  | unmarkOp (id : Nat)
  | toggleOp (id : Nat)
  | resetOp
  | computePlanOp
  | commitOp (cacheOk : Bool)
  | refreshOp (ok : Bool) (newPkgs : List PkgData)
  | updateOp (ok : Bool) (newPkgs : List PkgData)
  | applyFilterOp (f : FilterCategory)
  | rebuildListOp
  | setSortOp (sb : SortBy) (asc : Bool)
  | ensureIndexOp
  | setSearchOp (q : String) (found : List String)
  | clearSearchOp
  | searchPopOp
  | searchPushOp (ch : Char)
  | markAllUpgradableOp
  | updateCountsOp

/-- One user-facing operation as a state transformer. -/
def stepOp (s : MState) : Op → MState
  | Op.markInstallOp id => s.mark_install id
  | Op.markRemoveOp id => s.mark_remove id
  | Op.unmarkOp id => s.unmark id
  | Op.toggleOp id => (s.toggle id).1
  | Op.resetOp => s.reset
  | Op.computePlanOp => s.compute_plan
  | Op.commitOp ok => (s.commitStep ok).1
  | Op.refreshOp ok ps => (s.refreshStep ok ps).1
  | Op.updateOp ok ps => (s.updateStep ok ps).1
  | Op.applyFilterOp f => s.apply_filter f
  | Op.rebuildListOp => s.rebuild_list
  | Op.setSortOp sb asc => s.set_sort sb asc
  | Op.ensureIndexOp => s.ensure_search_index
  | Op.setSearchOp q found => s.set_search_query q found
  | Op.clearSearchOp => s.clear_search
  | Op.searchPopOp => s.search_query_pop
  | Op.searchPushOp ch => s.search_query_push ch
  | Op.markAllUpgradableOp => s.mark_all_upgradable
  | Op.updateCountsOp => s.update_cache_counts

/-- The manager states reachable from `ManagerState::new` on a given
on-disk cache by user-facing operations. -/
inductive Reachable (pkgs : List PkgData)
    (rf : List (Option AptMark) → List (Option AptMark) × Option String) : MState → Prop
  | init : Reachable pkgs rf (MState.init pkgs rf)
  | step (s : MState) (op : Op) : Reachable pkgs rf s → Reachable pkgs rf (stepOp s op)

/-! Concrete fixtures used by witnesses and counterexamples: small
caches with a trivial or a dependency-adding solver. -/

/-- A solver that keeps the marks as they are and reports no error. -/
def rfId : List (Option AptMark) → List (Option AptMark) × Option String :=
  fun m => (m, none)

/-- An installed, upgradable package. -/
def pkgA : PkgData :=
  { fullname := "pkg-a", sectionName := "utils", installed_version := "1.0",
    candidate_version := "1.1", is_installed := true, is_upgradable := true,
    candidate := some (5, 7), deps := [] }

/-- A not-installed library package with no dependencies. -/
def pkgB : PkgData :=
  { fullname := "lib-x", sectionName := "libs", installed_version := "",
    candidate_version := "2.0", is_installed := false, is_upgradable := false,
    candidate := some (3, 4), deps := [] }

/-- A solver that pulls in the second package whenever the first one
is marked for install (a dependency the resolver adds). -/
def rfDep01 : List (Option AptMark) → List (Option AptMark) × Option String :=
  fun m =>
    (if m.getD 0 none == some AptMark.install then m.set 1 (some AptMark.install) else m,
     none)

/-- An arbitrary empty Planned payload for counterexample states. -/
def ppEmpty : PlannedPayload :=
  { changes := [], download_size := 0, install_size_change := 0, errors := [] }

/-- A Dirty manager state with one Install intent on the `[pkgA, pkgB]`
cache, dependency solver, looking at the Marked Changes filter. -/
def shC10 : Shared :=
  { Shared.initial [pkgA, pkgB] rfDep01 with
      user_intent := [(0, UserIntent.Install)],
      selected_filter := FilterCategory.MarkedChanges }

/-- The Planned state computed from `shC10`, list rebuilt. -/
def sC10 : MState := ((MState.dirty shC10).compute_plan).rebuild_list

/-- A Planned manager whose intent store holds one entry. -/
def sPlannedEx : MState :=
  MState.planned { Shared.initial [pkgA] rfId with user_intent := [(0, UserIntent.Install)] }
    ppEmpty

/-- Every resolvable id of the first registry resolves identically in
the second (the registry only ever grows in place). -/
def regPres (r r2 : List String) : Prop :=
  ∀ i x, r.get? i = some x → r2.get? i = some x

/-- The installed size of the candidate of the package a handle
resolves to (the only notion of installed size `plan()` reads:
`candidate().installed_size()`), 0 when anything is missing. -/
def candInstalledSize (c : AptCacheM) (id : Nat) : Nat :=
  match c.fullname_of id with
  | none => 0
  | some fn =>
    match c.getPkg fn with
    | none => 0
    | some p =>
      match p.candidate with
      | none => 0
      | some di => di.2


/-- The two-package cache with the dependency solver, as built by
`AptCache::new`. -/
def cW : AptCacheM := AptCacheM.new [pkgA, pkgB] rfDep01

/-- One Install intent on the first package. -/
def iW : Intent := [(0, UserIntent.Install)]

/-- The user-requested upgrade change `plan()` emits for `cW`/`iW`. -/
def chW : PlannedChange :=
  { package := 0, action := ChangeAction.Upgrade, reason := ChangeReason.UserRequested,
    download_size := 5, size_change := 7 }


/-- Operations on whose success path the source removes intent
entries: unmark, toggle (cascading unmark), reset, commit (success
clears the store; failure drops the whole manager), and the successful
refresh / apt-update paths. -/
def Op.removesIntent : Op → Bool
  | Op.unmarkOp _ => true
  | Op.toggleOp _ => true
  | Op.resetOp => true
  | Op.commitOp _ => true
  | Op.refreshOp true _ => true
  | Op.updateOp true _ => true
  | _ => false

/-- A package that appears only after a refresh. -/
def pkgC : PkgData :=
  { fullname := "new-b", sectionName := "misc", installed_version := "",
    candidate_version := "1.0", is_installed := false, is_upgradable := false,
    candidate := some (2, 3), deps := [] }

/-- A second package that appears only after a refresh. -/
def pkgD : PkgData :=
  { fullname := "new-c", sectionName := "misc", installed_version := "",
    candidate_version := "1.0", is_installed := false, is_upgradable := false,
    candidate := some (4, 6), deps := [] }

/-- The list rows after refreshing a one-package cache to a
three-package one: the two unregistered packages both get the
sentinel id. -/
def c7rows : List PackageInfo :=
  rebuildRows ((AptCacheM.new [pkgA] rfId).refreshCache [pkgA, pkgC, pkgD]) []
    FilterCategory.All none

/-- A Dirty manager with one Install intent on `pkg-a`, whose plan
pulls `lib-x` in as a pure dependency, viewing the All filter. -/
def shC5w : Shared :=
  { Shared.initial [pkgA, pkgB] rfDep01 with
      user_intent := [(0, UserIntent.Install)],
      selected_filter := FilterCategory.All }

/-- The cache slot one intent entry writes to. -/
def slotOf (c : AptCacheM) (id : Nat) : Option Nat :=
  (c.fullname_of id).bind (fun n => c.pkgIdx n)

/-- The native mark one user intent applies. -/
def markForIntent : UserIntent → Option AptMark
  | UserIntent.Install => some AptMark.install
  | UserIntent.Remove => some AptMark.delete
  | UserIntent.Hold => none
  | UserIntent.Default => none

/-- One intent entry applied to a cache (the body of the
`applyUserIntent` fold). -/
def applyOneIntent (c : AptCacheM) (e : Nat × UserIntent) : AptCacheM :=
  match e.2 with
  | UserIntent.Install => c.mark_install_id e.1
  | UserIntent.Remove => c.mark_delete_id e.1
  | UserIntent.Hold => c.mark_keep_id e.1
  | UserIntent.Default => c

/-- One intent entry applied to a marks vector at a resolved slot. -/
def applyMarks (m : List (Option AptMark)) (slot : Option Nat) (v : UserIntent) :
    List (Option AptMark) :=
  match v, slot with
  | UserIntent.Default, _ => m
  | _, none => m
  | v, some j => m.set j (markForIntent v)

/-- A Dirty manager with one Install intent on the installed `pkg-a`,
viewing the All filter. -/
def shC6w : Shared :=
  { Shared.initial [pkgA] rfId with
      user_intent := [(0, UserIntent.Install)],
      selected_filter := FilterCategory.All }

/-! Helper lemmas about the intent map, the registry, and `plan()`. -/

theorem idxOfStr_get? (fn : String) (l : List String) (j : Nat)
    (h : idxOfStr fn l = some j) : l.get? j = some fn := by
  induction l generalizing j with
  | nil => simp [idxOfStr] at h
  | cons s rest ih =>
    by_cases hs : s == fn
    · simp [idxOfStr, hs] at h
      subst h
      simp [List.get?]
      exact (eq_of_beq hs).symm ▸ rfl
    · simp [idxOfStr, hs] at h
      obtain ⟨j0, hj0, hj⟩ := h
      subst hj
      simpa [List.get?] using ih j0 hj0

theorem id_for_fullname (c : AptCacheM) (fn : String) :
    ((c.id_for fn).1).fullname_of ((c.id_for fn).2) = some fn := by
  unfold AptCacheM.id_for AptCacheM.fullname_of
  cases h : idxOfStr fn c.id_to_fullname with
  | some id => simpa using idxOfStr_get? fn _ id h
  | none => simp [List.get?_eq_getElem?, List.getElem?_concat_length]

theorem id_for_regPres (c : AptCacheM) (fn : String) :
    regPres c.id_to_fullname ((c.id_for fn).1).id_to_fullname := by
  unfold AptCacheM.id_for
  cases h : idxOfStr fn c.id_to_fullname with
  | some id => exact fun i x hx => hx
  | none =>
    intro i x hx
    simp only [List.get?_eq_getElem?] at hx ⊢
    rw [List.getElem?_append_left]
    · exact hx
    · exact (List.getElem?_eq_some.mp hx).1

theorem id_for_pkgs (c : AptCacheM) (fn : String) : ((c.id_for fn).1).pkgs = c.pkgs := by
  unfold AptCacheM.id_for
  cases idxOfStr fn c.id_to_fullname <;> rfl

theorem planLoop_regPres (intent : Intent) :
    ∀ (es : List ChangeEntry) (c : AptCacheM),
      regPres c.id_to_fullname ((planLoop c intent es).1).id_to_fullname := by
  intro es
  induction es with
  | nil => intro c; exact fun i x hx => hx
  | cons e rest ih =>
    intro c
    simp only [planLoop]
    split
    · exact fun i x hx => ih _ i x (id_for_regPres c e.fullname i x hx)
    · exact fun i x hx => ih _ i x (id_for_regPres c e.fullname i x hx)

theorem planLoop_pkgs (intent : Intent) :
    ∀ (es : List ChangeEntry) (c : AptCacheM),
      ((planLoop c intent es).1).pkgs = c.pkgs := by
  intro es
  induction es with
  | nil => intro c; rfl
  | cons e rest ih =>
    intro c
    simp only [planLoop]
    split
    · rw [ih, id_for_pkgs]
    · show ((planLoop (c.id_for e.fullname).1 intent rest).1).pkgs = c.pkgs
      rw [ih, id_for_pkgs]

theorem planLoop_sound (intent : Intent) :
    ∀ (es : List ChangeEntry) (c : AptCacheM) (ch : PlannedChange),
      ch ∈ (planLoop c intent es).2.1 →
      ∃ e ∈ es, ∃ ar : ChangeAction × ChangeReason,
        classify e.is_installed e.marked_install e.marked_upgrade e.marked_delete
          (containsIntent intent ch.package) = some ar ∧
        ch.action = ar.1 ∧ ch.reason = ar.2 ∧
        ch.download_size = (changeSizes e.candidate_info ar.1).1 ∧
        ch.size_change = (changeSizes e.candidate_info ar.1).2 ∧
        ((planLoop c intent es).1).fullname_of ch.package = some e.fullname := by
  intro es
  induction es with
  | nil => intro c ch h; simp [planLoop] at h
  | cons e rest ih =>
    intro c ch h
    simp only [planLoop] at h ⊢
    revert h
    split
    · intro h
      obtain ⟨e2, he2, ar, h1, h2, h3, h4, h5, h6⟩ := ih _ ch h
      exact ⟨e2, List.mem_cons_of_mem e he2, ar, h1, h2, h3, h4, h5, h6⟩
    · intro h
      rename_i ar har
      rcases List.mem_cons.mp h with hch | hch
      · subst hch
        refine ⟨e, List.mem_cons_self e rest, ar, har, rfl, rfl, rfl, rfl, ?_⟩
        have h1 := id_for_fullname c e.fullname
        exact planLoop_regPres intent rest (c.id_for e.fullname).1 _ _ h1
      · obtain ⟨e2, he2, ar2, h1, h2, h3, h4, h5, h6⟩ := ih _ ch hch
        exact ⟨e2, List.mem_cons_of_mem e he2, ar2, h1, h2, h3, h4, h5, h6⟩

theorem planLoop_sums (intent : Intent) :
    ∀ (es : List ChangeEntry) (c : AptCacheM),
      (planLoop c intent es).2.2.1 =
        ((planLoop c intent es).2.1.map (fun ch => ch.download_size)).sum ∧
      (planLoop c intent es).2.2.2 =
        ((planLoop c intent es).2.1.map (fun ch => ch.size_change)).sum := by
  intro es
  induction es with
  | nil => intro c; simp [planLoop]
  | cons e rest ih =>
    intro c
    simp only [planLoop]
    split
    · exact ih _
    · simp only [List.map_cons, List.sum_cons]
      exact ⟨by rw [(ih _).1], by rw [(ih _).2]⟩

theorem setMark_fields (c : AptCacheM) (name : String) (m : Option AptMark) :
    (c.setMark name m).pkgs = c.pkgs ∧
    (c.setMark name m).id_to_fullname = c.id_to_fullname ∧
    (c.setMark name m).resolveFn = c.resolveFn := by
  unfold AptCacheM.setMark
  cases c.pkgIdx name <;> exact ⟨rfl, rfl, rfl⟩

theorem mark_install_id_fields (c : AptCacheM) (id : Nat) :
    (c.mark_install_id id).pkgs = c.pkgs ∧
    (c.mark_install_id id).id_to_fullname = c.id_to_fullname ∧
    (c.mark_install_id id).resolveFn = c.resolveFn := by
  unfold AptCacheM.mark_install_id AptCacheM.mark_install
  cases c.fullname_of id with
  | some n => exact setMark_fields c n _
  | none => exact ⟨rfl, rfl, rfl⟩

theorem mark_delete_id_fields (c : AptCacheM) (id : Nat) :
    (c.mark_delete_id id).pkgs = c.pkgs ∧
    (c.mark_delete_id id).id_to_fullname = c.id_to_fullname ∧
    (c.mark_delete_id id).resolveFn = c.resolveFn := by
  unfold AptCacheM.mark_delete_id AptCacheM.mark_delete
  cases c.fullname_of id with
  | some n => exact setMark_fields c n _
  | none => exact ⟨rfl, rfl, rfl⟩

theorem mark_keep_id_fields (c : AptCacheM) (id : Nat) :
    (c.mark_keep_id id).pkgs = c.pkgs ∧
    (c.mark_keep_id id).id_to_fullname = c.id_to_fullname ∧
    (c.mark_keep_id id).resolveFn = c.resolveFn := by
  unfold AptCacheM.mark_keep_id AptCacheM.mark_keep
  cases c.fullname_of id with
  | some n => exact setMark_fields c n _
  | none => exact ⟨rfl, rfl, rfl⟩

theorem applyUserIntent_fields (intent : Intent) :
    ∀ (c : AptCacheM),
      (applyUserIntent c intent).pkgs = c.pkgs ∧
      (applyUserIntent c intent).id_to_fullname = c.id_to_fullname ∧
      (applyUserIntent c intent).resolveFn = c.resolveFn := by
  induction intent with
  | nil => intro c; exact ⟨rfl, rfl, rfl⟩
  | cons e rest ih =>
    intro c
    have step : ∀ cc : AptCacheM,
        (match e.2 with
          | UserIntent.Install => cc.mark_install_id e.1
          | UserIntent.Remove => cc.mark_delete_id e.1
          | UserIntent.Hold => cc.mark_keep_id e.1
          | UserIntent.Default => cc).pkgs = cc.pkgs ∧
        (match e.2 with
          | UserIntent.Install => cc.mark_install_id e.1
          | UserIntent.Remove => cc.mark_delete_id e.1
          | UserIntent.Hold => cc.mark_keep_id e.1
          | UserIntent.Default => cc).id_to_fullname = cc.id_to_fullname ∧
        (match e.2 with
          | UserIntent.Install => cc.mark_install_id e.1
          | UserIntent.Remove => cc.mark_delete_id e.1
          | UserIntent.Hold => cc.mark_keep_id e.1
          | UserIntent.Default => cc).resolveFn = cc.resolveFn := by
      intro cc
      cases e.2 with
      | Install => exact mark_install_id_fields cc e.1
      | Remove => exact mark_delete_id_fields cc e.1
      | Hold => exact mark_keep_id_fields cc e.1
      | Default => exact ⟨rfl, rfl, rfl⟩
    have happ : applyUserIntent c (e :: rest) =
        applyUserIntent
          (match e.2 with
            | UserIntent.Install => c.mark_install_id e.1
            | UserIntent.Remove => c.mark_delete_id e.1
            | UserIntent.Hold => c.mark_keep_id e.1
            | UserIntent.Default => c) rest := rfl
    rw [happ]
    obtain ⟨h1, h2, h3⟩ := ih (match e.2 with
      | UserIntent.Install => c.mark_install_id e.1
      | UserIntent.Remove => c.mark_delete_id e.1
      | UserIntent.Hold => c.mark_keep_id e.1
      | UserIntent.Default => c)
    obtain ⟨g1, g2, g3⟩ := step c
    exact ⟨h1.trans g1, h2.trans g2, h3.trans g3⟩

theorem resolvedCache_pkgs (c : AptCacheM) (intent : Intent) :
    (resolvedCache c intent).pkgs = c.pkgs := by
  unfold resolvedCache
  simp only
  exact (applyUserIntent_fields intent c.clear_all_marks).1

theorem resolvedCache_reg (c : AptCacheM) (intent : Intent) :
    (resolvedCache c intent).id_to_fullname = c.id_to_fullname := by
  unfold resolvedCache
  simp only
  exact (applyUserIntent_fields intent c.clear_all_marks).2.1

theorem changeData_mem (c : AptCacheM) (e : ChangeEntry) (he : e ∈ changeData c) :
    ∃ pm : PkgData × AptMark, pm ∈ c.get_changes ∧
      e.fullname = pm.1.fullname ∧ e.is_installed = pm.1.is_installed ∧
      e.marked_install = markedInstallB pm.2 ∧
      e.marked_upgrade = markedUpgradeB pm.2 pm.1.is_installed ∧
      e.marked_delete = markedDeleteB pm.2 ∧
      e.candidate_info = pm.1.candidate := by
  unfold changeData at he
  obtain ⟨pm, hpm, hev⟩ := List.mem_map.mp he
  subst hev
  exact ⟨pm, hpm, rfl, rfl, rfl, rfl, rfl, rfl⟩

theorem get_changes_pkg_mem (c : AptCacheM) (pm : PkgData × AptMark)
    (h : pm ∈ c.get_changes) : pm.1 ∈ c.pkgs := by
  unfold AptCacheM.get_changes at h
  obtain ⟨jp, hjp, hv⟩ := List.mem_filterMap.mp h
  obtain ⟨m, _hm, hv2⟩ := Option.map_eq_some'.mp hv
  have h2 : pm.1 = jp.2 := by rw [← hv2]
  rw [h2]
  exact List.snd_mem_of_mem_enum hjp

theorem find?_fullname_of_mem :
    ∀ (l : List PkgData), (l.map (fun p => p.fullname)).Nodup →
      ∀ p ∈ l, l.find? (fun q => q.fullname == p.fullname) = some p := by
  intro l
  induction l with
  | nil => intro _ p hp; simp at hp
  | cons q rest ih =>
    intro hnodup p hp
    simp only [List.map_cons, List.nodup_cons] at hnodup
    rcases List.mem_cons.mp hp with hpq | hpr
    · subst hpq
      simp [List.find?]
    · by_cases hq : q.fullname == p.fullname
      · exfalso
        apply hnodup.1
        have hm : p.fullname ∈ rest.map (fun r => r.fullname) :=
          List.mem_map.mpr ⟨p, hpr, rfl⟩
        rw [eq_of_beq hq]
        exact hm
      · simp only [List.find?, hq]
        exact ih hnodup.2 p hpr

theorem getPkg_of_mem (c : AptCacheM)
    (hnodup : (c.pkgs.map (fun p => p.fullname)).Nodup)
    (p : PkgData) (hp : p ∈ c.pkgs) :
    c.getPkg p.fullname = some p :=
  find?_fullname_of_mem c.pkgs hnodup p hp

/-! Claim theorems settled so far. -/

theorem planFromCache_parts (c : AptCacheM) (intent : Intent) :
    (planFromCache c intent).2.changes =
      (planLoop (resolvedCache c intent) intent (changeData (resolvedCache c intent))).2.1 ∧
    (planFromCache c intent).1 =
      (planLoop (resolvedCache c intent) intent (changeData (resolvedCache c intent))).1 ∧
    (planFromCache c intent).2.download_size =
      (planLoop (resolvedCache c intent) intent (changeData (resolvedCache c intent))).2.2.1 ∧
    (planFromCache c intent).2.install_size_change =
      (planLoop (resolvedCache c intent) intent (changeData (resolvedCache c intent))).2.2.2 :=
  ⟨rfl, rfl, rfl, rfl⟩

/-- C1: every entry produced by `plan()` from the cache's changed
packages is classified as the claim states: install/upgrade marks on
an installed package give Upgrade, on a not-installed package Install,
a delete mark gives Remove; the reason is UserRequested exactly when
the handle is in the Intent store, and otherwise Dependency for
installs/upgrades and AutoRemove for removals. -/
theorem c1_plan_classification (c : AptCacheM) (intent : Intent) (ch : PlannedChange)
    (hch : ch ∈ (planFromCache c intent).2.changes) :
    ∃ p : PkgData, ∃ m : AptMark,
      (p, m) ∈ (resolvedCache c intent).get_changes ∧
      ((planFromCache c intent).1).fullname_of ch.package = some p.fullname ∧
      (((markedInstallB m || markedUpgradeB m p.is_installed) = true ∧ p.is_installed = true) →
         ch.action = ChangeAction.Upgrade) ∧
      (((markedInstallB m || markedUpgradeB m p.is_installed) = true ∧ p.is_installed = false) →
         ch.action = ChangeAction.Install) ∧
      (markedDeleteB m = true → ch.action = ChangeAction.Remove) ∧
      (ch.reason = ChangeReason.UserRequested ↔ containsIntent intent ch.package = true) ∧
      (containsIntent intent ch.package = false →
         ((ch.action = ChangeAction.Install ∨ ch.action = ChangeAction.Upgrade) →
            ch.reason = ChangeReason.Dependency) ∧
         (ch.action = ChangeAction.Remove → ch.reason = ChangeReason.AutoRemove)) := by
  rw [(planFromCache_parts c intent).1] at hch
  obtain ⟨e, he, ar, hcl, hact, hrsn, _hdl, _hsz, hfn⟩ :=
    planLoop_sound intent (changeData (resolvedCache c intent)) (resolvedCache c intent) ch hch
  obtain ⟨pm, hpm, hefn, heinst, hemi, hemu, hemd, _hecand⟩ :=
    changeData_mem (resolvedCache c intent) e he
  refine ⟨pm.1, pm.2, hpm, ?_, ?_⟩
  · rw [(planFromCache_parts c intent).2.1, hfn, hefn]
  rw [heinst, hemi, hemu, hemd] at hcl
  cases hm : pm.2 with
  | install =>
    rw [hm] at hcl
    cases hinst : pm.1.is_installed with
    | true =>
      rw [hinst] at hcl
      cases hu : containsIntent intent ch.package with
      | true =>
        rw [hu] at hcl
        simp [classify, markedInstallB, markedUpgradeB, markedDeleteB] at hcl
        subst hcl
        exact ⟨fun _ => hact, fun hc => absurd hc.2 (by simp),
          fun hd => absurd hd (by decide), ⟨fun _ => rfl, fun _ => hrsn⟩,
          fun hff => absurd hff (by simp)⟩
      | false =>
        rw [hu] at hcl
        simp [classify, markedInstallB, markedUpgradeB, markedDeleteB] at hcl
        subst hcl
        refine ⟨fun _ => hact, fun hc => absurd hc.2 (by simp),
          fun hd => absurd hd (by decide), ⟨fun hr => ?_, fun hff => absurd hff (by simp)⟩,
          fun _ => ⟨fun _ => hrsn, fun hre => ?_⟩⟩
        · rw [hrsn] at hr; exact absurd hr (by decide)
        · rw [hact] at hre; exact absurd hre (by decide)
    | false =>
      rw [hinst] at hcl
      cases hu : containsIntent intent ch.package with
      | true =>
        rw [hu] at hcl
        simp [classify, markedInstallB, markedUpgradeB, markedDeleteB] at hcl
        subst hcl
        exact ⟨fun hc => absurd hc.2 (by simp), fun _ => hact,
          fun hd => absurd hd (by decide), ⟨fun _ => rfl, fun _ => hrsn⟩,
          fun hff => absurd hff (by simp)⟩
      | false =>
        rw [hu] at hcl
        simp [classify, markedInstallB, markedUpgradeB, markedDeleteB] at hcl
        subst hcl
        refine ⟨fun hc => absurd hc.2 (by simp), fun _ => hact,
          fun hd => absurd hd (by decide), ⟨fun hr => ?_, fun hff => absurd hff (by simp)⟩,
          fun _ => ⟨fun _ => hrsn, fun hre => ?_⟩⟩
        · rw [hrsn] at hr; exact absurd hr (by decide)
        · rw [hact] at hre; exact absurd hre (by decide)
  | delete =>
    rw [hm] at hcl
    cases hu : containsIntent intent ch.package with
    | true =>
      rw [hu] at hcl
      simp [classify, markedInstallB, markedUpgradeB, markedDeleteB] at hcl
      subst hcl
      exact ⟨fun hc => absurd hc.1 (by simp [markedInstallB, markedUpgradeB]),
        fun hc => absurd hc.1 (by simp [markedInstallB, markedUpgradeB]),
        fun _ => hact, ⟨fun _ => rfl, fun _ => hrsn⟩,
        fun hff => absurd hff (by simp)⟩
    | false =>
      rw [hu] at hcl
      simp [classify, markedInstallB, markedUpgradeB, markedDeleteB] at hcl
      subst hcl
      refine ⟨fun hc => absurd hc.1 (by simp [markedInstallB, markedUpgradeB]),
        fun hc => absurd hc.1 (by simp [markedInstallB, markedUpgradeB]),
        fun _ => hact, ⟨fun hr => ?_, fun hff => absurd hff (by simp)⟩,
        fun _ => ⟨fun hio => ?_, fun _ => hrsn⟩⟩
      · rw [hrsn] at hr; exact absurd hr (by decide)
      · rw [hact] at hio
        rcases hio with h1 | h1 <;> exact absurd h1 (by decide)

/-- Witness for C1 at the concrete two-package cache. -/
theorem c1_plan_classification_witness :
    chW ∈ (planFromCache cW iW).2.changes ∧
    (∃ p : PkgData, ∃ m : AptMark,
      (p, m) ∈ (resolvedCache cW iW).get_changes ∧
      ((planFromCache cW iW).1).fullname_of chW.package = some p.fullname ∧
      (((markedInstallB m || markedUpgradeB m p.is_installed) = true ∧ p.is_installed = true) →
         chW.action = ChangeAction.Upgrade) ∧
      (((markedInstallB m || markedUpgradeB m p.is_installed) = true ∧ p.is_installed = false) →
         chW.action = ChangeAction.Install) ∧
      (markedDeleteB m = true → chW.action = ChangeAction.Remove) ∧
      (chW.reason = ChangeReason.UserRequested ↔ containsIntent iW chW.package = true) ∧
      (containsIntent iW chW.package = false →
         ((chW.action = ChangeAction.Install ∨ chW.action = ChangeAction.Upgrade) →
            chW.reason = ChangeReason.Dependency) ∧
         (chW.action = ChangeAction.Remove → chW.reason = ChangeReason.AutoRemove))) :=
  ⟨by decide, c1_plan_classification cW iW chW (by decide)⟩

/-- C9: in the Planned payload, `download_size` is the sum of the
per-change download sizes, `install_size_change` the sum of the
per-change size changes, and every Remove change has `size_change`
equal to the negation of the package's (candidate) installed size. -/
theorem c9_plan_sizes (c : AptCacheM) (intent : Intent)
    (hnodup : (c.pkgs.map (fun p => p.fullname)).Nodup) :
    (planFromCache c intent).2.download_size =
      ((planFromCache c intent).2.changes.map (fun ch => ch.download_size)).sum ∧
    (planFromCache c intent).2.install_size_change =
      ((planFromCache c intent).2.changes.map (fun ch => ch.size_change)).sum ∧
    (∀ ch ∈ (planFromCache c intent).2.changes, ch.action = ChangeAction.Remove →
      ch.size_change = -(candInstalledSize (planFromCache c intent).1 ch.package : Int)) := by
  obtain ⟨hc, hcache, hd, hs⟩ := planFromCache_parts c intent
  refine ⟨?_, ?_, ?_⟩
  · rw [hd, hc]
    exact (planLoop_sums intent (changeData (resolvedCache c intent)) (resolvedCache c intent)).1
  · rw [hs, hc]
    exact (planLoop_sums intent (changeData (resolvedCache c intent)) (resolvedCache c intent)).2
  · intro ch hch hrem
    rw [hc] at hch
    obtain ⟨e, he, ar, _hcl, hact, _hrsn, _hdl, hsz, hfn⟩ :=
      planLoop_sound intent (changeData (resolvedCache c intent)) (resolvedCache c intent) ch hch
    obtain ⟨pm, hpm, hefn, _heinst, _hemi, _hemu, _hemd, hecand⟩ :=
      changeData_mem (resolvedCache c intent) e he
    have hp_mem : pm.1 ∈ c.pkgs := by
      have h1 := get_changes_pkg_mem (resolvedCache c intent) pm hpm
      rwa [resolvedCache_pkgs] at h1
    -- the final cache has the same package list
    have hpkgs : ((planFromCache c intent).1).pkgs = c.pkgs := by
      rw [hcache, planLoop_pkgs, resolvedCache_pkgs]
    -- candInstalledSize at the change's package
    have har1 : ar.1 = ChangeAction.Remove := by rw [← hact, hrem]
    have hget : ((planLoop (resolvedCache c intent) intent
        (changeData (resolvedCache c intent))).1).getPkg pm.1.fullname = some pm.1 := by
      unfold AptCacheM.getPkg
      rw [planLoop_pkgs, resolvedCache_pkgs]
      exact find?_fullname_of_mem c.pkgs hnodup pm.1 hp_mem
    have hciz : candInstalledSize ((planFromCache c intent).1) ch.package =
        (match pm.1.candidate with | none => 0 | some di => di.2) := by
      unfold candInstalledSize
      rw [hcache]
      simp only [hfn, hefn, hget]
      try rfl
    rw [hsz, har1, hecand, hciz]
    cases pm.1.candidate with
    | none => simp [changeSizes]
    | some di => simp [changeSizes]

/-- Witness for C9 at the concrete two-package cache. -/
theorem c9_plan_sizes_witness :
    (cW.pkgs.map (fun p => p.fullname)).Nodup ∧
    ((planFromCache cW iW).2.download_size =
      ((planFromCache cW iW).2.changes.map (fun ch => ch.download_size)).sum ∧
    (planFromCache cW iW).2.install_size_change =
      ((planFromCache cW iW).2.changes.map (fun ch => ch.size_change)).sum ∧
    (∀ ch ∈ (planFromCache cW iW).2.changes, ch.action = ChangeAction.Remove →
      ch.size_change = -(candInstalledSize (planFromCache cW iW).1 ch.package : Int))) :=
  ⟨by decide, c9_plan_sizes cW iW (by decide)⟩

/-- C3 counterexample: on a Planned manager with one Intent entry, a
failing commit returns with the wrapper left in the `Transitioning`
placeholder: no (empty) Intent store is observable afterwards, so the
Intent store is not emptied whether or not the commit succeeds. -/
theorem c3_commit_failure_counterexample :
    MState.intentOfObs ((MState.commitStep sPlannedEx false).1) ≠ some [] ∧
    MState.intentOfObs sPlannedEx = some [(0, UserIntent.Install)] :=
  ⟨by decide, by decide⟩

/-- C3 amended: after a commit that succeeds, the Intent store of a
Planned manager is empty. -/
theorem c3_commit_success_clears_intent (sh : Shared) (p : PlannedPayload) :
    MState.intentOfObs ((MState.commitStep (MState.planned sh p) true).1) = some [] := rfl

/-- C4 (code bug): when commit is invoked on a Planned manager and the
underlying cache commit fails, the manager does not remain Planned:
`std::mem::take` left `Transitioning` in place and the early return
skips the reassignment, so the supposedly unobservable placeholder is
the state every later operation sees (and panics on). -/
theorem c4_commit_failure_observable_transitioning (sh : Shared) (p : PlannedPayload) :
    (MState.commitStep (MState.planned sh p) false).1 = MState.transitioning ∧
    ((MState.commitStep (MState.planned sh p) false).1).is_planned = false :=
  ⟨rfl, rfl⟩

/-- C10: `filter_count(MarkedChanges)` always equals the number of
Intent entries, while the MarkedChanges filter of `rebuild_list`
admits a package when it has an Intent entry or carries any native
mark; on the concrete Planned state `sC10`, whose plan marks a
dependency, the count is strictly below the number of rows. -/
theorem c10_marked_changes_filter_count :
    (∀ (sh : Shared) (p : PlannedPayload),
       (MState.clean sh).filter_count FilterCategory.MarkedChanges = sh.user_intent.length ∧
       (MState.dirty sh).filter_count FilterCategory.MarkedChanges = sh.user_intent.length ∧
       (MState.planned sh p).filter_count FilterCategory.MarkedChanges = sh.user_intent.length) ∧
    (∀ (c : AptCacheM) (intent : Intent) (j : Nat) (p : PkgData),
       matchesCategory c intent FilterCategory.MarkedChanges j p =
         ((match c.get_id p.fullname with
           | some id => containsIntent intent id
           | none => false)
          || optMarkedInstall (c.pkgMark j)
          || optMarkedUpgrade (c.pkgMark j) p.is_installed
          || optMarkedDelete (c.pkgMark j))) ∧
    sC10.filter_count FilterCategory.MarkedChanges < sC10.listOf.length :=
  ⟨fun _sh _p => ⟨rfl, rfl, rfl⟩, fun _c _intent _j _p => rfl, by decide⟩

/-! Manager-level invariant lemmas and the state-machine claims. -/

theorem Shared.rebuild_intent (sh : Shared) : sh.rebuild_list.user_intent = sh.user_intent := rfl

theorem Shared.plan_intent (sh : Shared) : (sh.plan).1.user_intent = sh.user_intent := by
  unfold Shared.plan
  rfl

theorem compute_plan_intent (s : MState) : (s.compute_plan).intentOf = s.intentOf := by
  cases s with
  | clean sh => rfl
  | dirty sh =>
    show (Shared.plan sh).1.user_intent = sh.user_intent
    exact Shared.plan_intent sh
  | planned sh p => rfl
  | transitioning => rfl

theorem rebuild_list_intent (s : MState) : (s.rebuild_list).intentOf = s.intentOf := by
  cases s <;> rfl

theorem compute_plan_clean (sh : Shared) : (MState.clean sh).compute_plan = MState.clean sh := rfl

/- CleanInv preservation -/

theorem cleanInv_mapShared (f : Shared → Shared)
    (hf : ∀ sh, (f sh).user_intent = sh.user_intent) (s : MState)
    (h : s.is_clean = true → s.intentOf = []) :
    (s.mapShared f).is_clean = true → (s.mapShared f).intentOf = [] := by
  cases s with
  | clean sh =>
    intro _
    show (f sh).user_intent = []
    rw [hf]
    exact h rfl
  | dirty sh => intro hc; cases hc
  | planned sh p => intro hc; cases hc
  | transitioning => intro _; rfl

theorem cleanInv_mark_install (s : MState) (id : Nat)
    (_h : s.is_clean = true → s.intentOf = []) :
    (s.mark_install id).is_clean = true → (s.mark_install id).intentOf = [] := by
  cases s <;> intro hc <;> first | cases hc | rfl

theorem cleanInv_mark_remove (s : MState) (id : Nat)
    (_h : s.is_clean = true → s.intentOf = []) :
    (s.mark_remove id).is_clean = true → (s.mark_remove id).intentOf = [] := by
  cases s <;> intro hc <;> first | cases hc | rfl

theorem cleanInv_unmark (s : MState) (id : Nat)
    (h : s.is_clean = true → s.intentOf = []) :
    (s.unmark id).is_clean = true → (s.unmark id).intentOf = [] := by
  unfold MState.unmark
  by_cases hu : s.is_user_marked id
  · rw [if_pos hu]
    cases s with
    | clean sh => exact h
    | dirty sh => intro hc; cases hc
    | planned sh p => intro hc; cases hc
    | transitioning => intro _; rfl
  · rw [if_neg hu]
    exact h

theorem cleanInv_compute_plan (s : MState)
    (h : s.is_clean = true → s.intentOf = []) :
    (s.compute_plan).is_clean = true → (s.compute_plan).intentOf = [] := by
  cases s with
  | clean sh => exact h
  | dirty sh =>
    show (MState.planned _ _).is_clean = true → _
    intro hc; cases hc
  | planned sh p => intro hc; cases hc
  | transitioning => intro _; rfl

theorem cleanInv_rebuild (s : MState)
    (h : s.is_clean = true → s.intentOf = []) :
    (s.rebuild_list).is_clean = true → (s.rebuild_list).intentOf = [] := by
  cases s with
  | clean sh =>
    intro _
    show sh.rebuild_list.user_intent = []
    exact h rfl
  | dirty sh => intro hc; cases hc
  | planned sh p => intro hc; cases hc
  | transitioning => intro _; rfl

theorem cleanInv_fold_unmark (ids : List Nat) :
    ∀ (s : MState), (s.is_clean = true → s.intentOf = []) →
    ((ids.foldl (fun st pid => st.unmark pid) s).is_clean = true →
     (ids.foldl (fun st pid => st.unmark pid) s).intentOf = []) := by
  induction ids with
  | nil => intro s h; exact h
  | cons x rest ih =>
    intro s h
    exact ih (s.unmark x) (cleanInv_unmark s x h)

theorem cleanInv_fold_mark (ids : List Nat) :
    ∀ (s : MState), (s.is_clean = true → s.intentOf = []) →
    ((ids.foldl (fun st pid => st.mark_install pid) s).is_clean = true →
     (ids.foldl (fun st pid => st.mark_install pid) s).intentOf = []) := by
  induction ids with
  | nil => intro s h; exact h
  | cons x rest ih =>
    intro s h
    exact ih (s.mark_install x) (cleanInv_mark_install s x h)

theorem cleanInv_toggle (s : MState) (id : Nat)
    (h : s.is_clean = true → s.intentOf = []) :
    ((s.toggle id).1).is_clean = true → ((s.toggle id).1).intentOf = [] := by
  have h1 := cleanInv_rebuild _ (cleanInv_compute_plan _ h)
  simp only [MState.toggle, MState.toggle_unmark, MState.toggle_mark_impl]
  split
  · split <;> split <;>
      exact cleanInv_rebuild _ (cleanInv_compute_plan _ (cleanInv_fold_unmark _ _ h1))
  · exact cleanInv_rebuild _ (cleanInv_compute_plan _ (cleanInv_mark_install _ id h1))

theorem cleanInv_step (s : MState) (op : Op)
    (h : s.is_clean = true → s.intentOf = []) :
    (stepOp s op).is_clean = true → (stepOp s op).intentOf = [] := by
  cases op with
  | markInstallOp id => exact cleanInv_mark_install s id h
  | markRemoveOp id => exact cleanInv_mark_remove s id h
  | unmarkOp id => exact cleanInv_unmark s id h
  | toggleOp id => exact cleanInv_toggle s id h
  | resetOp =>
    cases s with
    | clean sh => exact h
    | dirty sh => intro _; rfl
    | planned sh p => intro _; rfl
    | transitioning => intro _; rfl
  | computePlanOp => exact cleanInv_compute_plan s h
  | commitOp ok =>
    show ((s.commitStep ok).1).is_clean = true → ((s.commitStep ok).1).intentOf = []
    cases s with
    | clean sh => exact h
    | dirty sh =>
      unfold MState.commitStep
      cases ok with
      | true => intro _; rfl
      | false => intro hc; cases hc
    | planned sh p =>
      unfold MState.commitStep
      cases ok with
      | true => intro _; rfl
      | false => intro hc; cases hc
    | transitioning => intro _; rfl
  | refreshOp ok ps =>
    show ((s.refreshStep ok ps).1).is_clean = true → ((s.refreshStep ok ps).1).intentOf = []
    unfold MState.refreshStep
    cases ok with
    | true =>
      have hall : ∀ t : MState,
          ((t.mapShared (fun sh => sh.refreshOk ps)).is_clean = true →
           (t.mapShared (fun sh => sh.refreshOk ps)).intentOf = []) := by
        intro t
        cases t <;> intro hc <;> first | rfl | cases hc
      exact hall s
    | false => exact h
  | updateOp ok ps =>
    show ((s.updateStep ok ps).1).is_clean = true → ((s.updateStep ok ps).1).intentOf = []
    unfold MState.updateStep
    cases ok with
    | true =>
      have hall : ∀ t : MState,
          ((t.mapShared (fun sh => sh.refreshOk ps)).is_clean = true →
           (t.mapShared (fun sh => sh.refreshOk ps)).intentOf = []) := by
        intro t
        cases t <;> intro hc <;> first | rfl | cases hc
      exact hall s
    | false => exact h
  | applyFilterOp f =>
    exact cleanInv_mapShared (fun sh => ({ sh with selected_filter := f }).rebuild_list)
      (fun sh => rfl) s h
  | rebuildListOp => exact cleanInv_rebuild s h
  | setSortOp sb asc =>
    exact cleanInv_mapShared
      (fun sh => ({ sh with sort_by := sb, sort_ascending := asc }).sort_list)
      (fun sh => rfl) s h
  | ensureIndexOp =>
    exact cleanInv_mapShared (fun sh => { sh with searchIndexBuilt := true })
      (fun sh => rfl) s h
  | setSearchOp q found =>
    refine cleanInv_mapShared (fun sh => sh.set_search_query q found) (fun sh => ?_) s h
    simp only [Shared.set_search_query]
    split
    · rfl
    · split
      · rfl
      · rfl
  | clearSearchOp =>
    exact cleanInv_mapShared (fun sh => { sh with searchQuery := "", searchResults := none })
      (fun sh => rfl) s h
  | searchPopOp =>
    exact cleanInv_mapShared (fun sh => { sh with searchQuery := sh.searchQuery.dropRight 1 })
      (fun sh => rfl) s h
  | searchPushOp ch =>
    exact cleanInv_mapShared (fun sh => { sh with searchQuery := sh.searchQuery.push ch })
      (fun sh => rfl) s h
  | markAllUpgradableOp =>
    exact cleanInv_fold_mark _ s h
  | updateCountsOp =>
    exact cleanInv_mapShared Shared.compute_cache_counts (fun sh => rfl) s h

end Synaptic

namespace Synaptic

theorem containsIntent_insert (l : Intent) (k h : Nat) (v : UserIntent)
    (hc : containsIntent l h = true) : containsIntent (insertIntent l k v) h = true := by
  unfold insertIntent
  by_cases hk : containsIntent l k = true
  · rw [if_pos hk]
    unfold containsIntent at hc ⊢
    obtain ⟨e, he, hkey⟩ := List.any_eq_true.mp hc
    refine List.any_eq_true.mpr ⟨(if e.1 == k then (k, v) else e), List.mem_map.mpr ⟨e, he, rfl⟩, ?_⟩
    by_cases hek : e.1 == k
    · rw [if_pos hek]
      have h1 : e.1 = h := eq_of_beq hkey
      have h2 : e.1 = k := eq_of_beq hek
      simp [← h1, h2.symm.trans h1]
    · rw [if_neg hek]
      exact hkey
  · rw [if_neg hk]
    unfold containsIntent at hc ⊢
    rw [List.any_append, hc]
    rfl

theorem keepKey_mapShared (f : Shared → Shared)
    (hf : ∀ sh, (f sh).user_intent = sh.user_intent) (s : MState) (h2 : Nat)
    (h : containsIntent s.intentOf h2 = true) :
    containsIntent (s.mapShared f).intentOf h2 = true := by
  cases s with
  | clean sh => show containsIntent (f sh).user_intent h2 = true; rw [hf]; exact h
  | dirty sh => show containsIntent (f sh).user_intent h2 = true; rw [hf]; exact h
  | planned sh p => show containsIntent (f sh).user_intent h2 = true; rw [hf]; exact h
  | transitioning => exact h

theorem keepKey_mark_install (s : MState) (id h2 : Nat)
    (h : containsIntent s.intentOf h2 = true) :
    containsIntent (s.mark_install id).intentOf h2 = true := by
  cases s with
  | clean sh => exact containsIntent_insert _ id h2 _ h
  | dirty sh => exact containsIntent_insert _ id h2 _ h
  | planned sh p => exact containsIntent_insert _ id h2 _ h
  | transitioning => exact h

theorem keepKey_mark_remove (s : MState) (id h2 : Nat)
    (h : containsIntent s.intentOf h2 = true) :
    containsIntent (s.mark_remove id).intentOf h2 = true := by
  cases s with
  | clean sh => exact containsIntent_insert _ id h2 _ h
  | dirty sh => exact containsIntent_insert _ id h2 _ h
  | planned sh p => exact containsIntent_insert _ id h2 _ h
  | transitioning => exact h

theorem keepKey_compute_plan (s : MState) (h2 : Nat)
    (h : containsIntent s.intentOf h2 = true) :
    containsIntent (s.compute_plan).intentOf h2 = true := by
  rw [compute_plan_intent]
  exact h

theorem keepKey_fold_mark (ids : List Nat) :
    ∀ (s : MState) (h2 : Nat), containsIntent s.intentOf h2 = true →
      containsIntent ((ids.foldl (fun st pid => st.mark_install pid) s)).intentOf h2 = true := by
  induction ids with
  | nil => intro s h2 h; exact h
  | cons x rest ih =>
    intro s h2 h
    exact ih (s.mark_install x) h2 (keepKey_mark_install s x h2 h)

theorem get?_inj_str (l : List String) (i j : Nat) (x : String) (hn : l.Nodup)
    (h1 : l.get? i = some x) (h2 : l.get? j = some x) : i = j := by
  have hi : i < l.length := by
    rcases List.get?_eq_some.mp h1 with ⟨hlt, _⟩
    exact hlt
  exact List.get?_inj hi hn (h1.trans h2.symm)

theorem idxOfStr_none (fn : String) :
    ∀ (l : List String), idxOfStr fn l = none ↔ fn ∉ l := by
  intro l
  induction l with
  | nil => simp [idxOfStr]
  | cons s rest ih =>
    by_cases hs : s == fn
    · have he : s = fn := eq_of_beq hs
      subst he
      simp [idxOfStr]
    · have hne : fn ≠ s := fun he => hs (by rw [he]; exact beq_self_eq_true s)
      simp only [idxOfStr, hs, Bool.false_eq_true, ite_false, Option.map_eq_none', ih,
        List.mem_cons, not_or]
      constructor
      · intro hf
        exact ⟨hne, hf⟩
      · intro hf
        exact hf.2

theorem idxOfStr_of_get? (fn : String) :
    ∀ (l : List String) (id : Nat), l.Nodup → l.get? id = some fn →
      idxOfStr fn l = some id := by
  intro l
  induction l with
  | nil => intro id _ h; simp [List.get?] at h
  | cons s rest ih =>
    intro id hn h
    cases id with
    | zero =>
      simp [List.get?] at h
      simp [idxOfStr, h]
    | succ k =>
      simp only [List.get?] at h
      have hmem : fn ∈ rest := List.get?_mem h
      have hs : (s == fn) = false := by
        rcases List.nodup_cons.mp hn with ⟨hnot, _⟩
        by_cases hb : s == fn
        · exact absurd (eq_of_beq hb ▸ hmem) hnot
        · simpa using hb
      simp [idxOfStr, hs, ih k (List.nodup_cons.mp hn).2 h]

/-- C2 amended: on every reachable manager state, `is_clean()` implies
the Intent store is empty and `planned_changes()` is None (the converse
fails: `unmark` leaves a Dirty manager Dirty even when the Intent store
becomes empty). -/
theorem c2_clean_implies_intent_empty (pkgs : List PkgData)
    (rf : List (Option AptMark) → List (Option AptMark) × Option String)
    (s : MState) (hr : Reachable pkgs rf s) :
    s.is_clean = true → s.intentOf = [] ∧ s.planned_changes = none := by
  have hinv : s.is_clean = true → s.intentOf = [] := by
    induction hr with
    | init => intro _; rfl
    | step s0 op hr0 ih => exact cleanInv_step s0 op ih
  intro hc
  refine ⟨hinv hc, ?_⟩
  cases s with
  | clean sh => rfl
  | dirty sh => cases hc
  | planned sh p => cases hc
  | transitioning => cases hc

/-- C2 counterexample: mark one package from Clean, then `unmark` it.
The Intent store is empty again but the reachable manager is still
Dirty, so `is_clean()` does not hold and the claimed biconditional (and
the "becomes Clean" part) is false. -/
theorem c2_unmark_leaves_dirty_counterexample :
    Reachable [pkgA] rfId
      (stepOp (stepOp (MState.init [pkgA] rfId) (Op.markInstallOp 0)) (Op.unmarkOp 0)) ∧
    (stepOp (stepOp (MState.init [pkgA] rfId) (Op.markInstallOp 0)) (Op.unmarkOp 0)).is_clean
      = false ∧
    (stepOp (stepOp (MState.init [pkgA] rfId) (Op.markInstallOp 0)) (Op.unmarkOp 0)).intentOf
      = [] :=
  ⟨Reachable.step _ _ (Reachable.step _ _ Reachable.init), by decide, by decide⟩

/-- Witness for C2 amended at the freshly initialised manager. -/
theorem c2_clean_implies_intent_empty_witness :
    (MState.init [pkgA] rfId).is_clean = true ∧
    ((MState.init [pkgA] rfId).intentOf = [] ∧
     (MState.init [pkgA] rfId).planned_changes = none) :=
  ⟨by decide, c2_clean_implies_intent_empty [pkgA] rfId (MState.init [pkgA] rfId) Reachable.init (by decide)⟩

/-- C8 amended: an operation that is not unmark / toggle / reset /
commit / successful refresh / successful apt-update preserves every
Intent entry; successful refresh and apt-update clear the whole store. -/
theorem c8_intent_removal_frame :
    (∀ (s : MState) (op : Op) (h2 : Nat), Op.removesIntent op = false →
       containsIntent s.intentOf h2 = true →
       containsIntent (stepOp s op).intentOf h2 = true) ∧
    (∀ (s : MState) (ps : List PkgData),
       (stepOp s (Op.refreshOp true ps)).intentOf = []) ∧
    (∀ (s : MState) (ps : List PkgData),
       (stepOp s (Op.updateOp true ps)).intentOf = []) := by
  refine ⟨?_, ?_, ?_⟩
  · intro s op h2 hrem h
    cases op with
    | markInstallOp id => exact keepKey_mark_install s id h2 h
    | markRemoveOp id => exact keepKey_mark_remove s id h2 h
    | unmarkOp id => cases hrem
    | toggleOp id => cases hrem
    | resetOp => cases hrem
    | computePlanOp => exact keepKey_compute_plan s h2 h
    | commitOp ok => cases hrem
    | refreshOp ok ps =>
      cases ok with
      | true => cases hrem
      | false => exact h
    | updateOp ok ps =>
      cases ok with
      | true => cases hrem
      | false => exact h
    | applyFilterOp f =>
      exact keepKey_mapShared (fun sh => ({ sh with selected_filter := f }).rebuild_list)
        (fun sh => rfl) s h2 h
    | rebuildListOp =>
      show containsIntent (s.rebuild_list).intentOf h2 = true
      rw [rebuild_list_intent]
      exact h
    | setSortOp sb asc =>
      exact keepKey_mapShared
        (fun sh => ({ sh with sort_by := sb, sort_ascending := asc }).sort_list)
        (fun sh => rfl) s h2 h
    | ensureIndexOp =>
      exact keepKey_mapShared (fun sh => { sh with searchIndexBuilt := true })
        (fun sh => rfl) s h2 h
    | setSearchOp q found =>
      refine keepKey_mapShared (fun sh => sh.set_search_query q found) (fun sh => ?_) s h2 h
      simp only [Shared.set_search_query]
      split
      · rfl
      · split
        · rfl
        · rfl
    | clearSearchOp =>
      exact keepKey_mapShared (fun sh => { sh with searchQuery := "", searchResults := none })
        (fun sh => rfl) s h2 h
    | searchPopOp =>
      exact keepKey_mapShared (fun sh => { sh with searchQuery := sh.searchQuery.dropRight 1 })
        (fun sh => rfl) s h2 h
    | searchPushOp ch =>
      exact keepKey_mapShared (fun sh => { sh with searchQuery := sh.searchQuery.push ch })
        (fun sh => rfl) s h2 h
    | markAllUpgradableOp => exact keepKey_fold_mark _ s h2 h
    | updateCountsOp =>
      exact keepKey_mapShared Shared.compute_cache_counts (fun sh => rfl) s h2 h
  · intro s ps
    show ((s.refreshStep true ps).1).intentOf = []
    cases s <;> rfl
  · intro s ps
    show ((s.updateStep true ps).1).intentOf = []
    cases s <;> rfl

/-- C8 counterexample: a successful `refresh()` on a reachable Dirty
manager with one Intent entry removes that entry, contradicting the
claim that refresh removes no Intent entries. -/
theorem c8_refresh_clears_intent_counterexample :
    containsIntent ((stepOp (MState.init [pkgA] rfId) (Op.markInstallOp 0)).intentOf) 0
      = true ∧
    containsIntent ((stepOp (stepOp (MState.init [pkgA] rfId) (Op.markInstallOp 0))
        (Op.refreshOp true [pkgA])).intentOf) 0 = false ∧
    Reachable [pkgA] rfId
      (stepOp (stepOp (MState.init [pkgA] rfId) (Op.markInstallOp 0))
        (Op.refreshOp true [pkgA])) :=
  ⟨by decide, by decide, Reachable.step _ _ (Reachable.step _ _ Reachable.init)⟩

/-- Witness for C8 amended: `compute_plan` preserves the marked entry. -/
theorem c8_intent_removal_frame_witness :
    Op.removesIntent Op.computePlanOp = false ∧
    containsIntent ((stepOp (MState.init [pkgA] rfId) (Op.markInstallOp 0)).intentOf) 0
      = true ∧
    containsIntent ((stepOp (stepOp (MState.init [pkgA] rfId) (Op.markInstallOp 0))
        Op.computePlanOp).intentOf) 0 = true :=
  ⟨by decide, by decide,
    c8_intent_removal_frame.1 (stepOp (MState.init [pkgA] rfId) (Op.markInstallOp 0)) Op.computePlanOp 0
      (by decide) (by decide)⟩

/-- C7 amended: the registry's handle-to-fullname mapping is a
bijection (both directions, on the no-duplicate registry that
`AptCache::new` builds and `id_for` maintains), and `refresh()` keeps
the registry unchanged, so previously valid handles still resolve to
the same fullname. -/
theorem c7_registry_bijection_refresh_safety :
    (∀ (c : AptCacheM) (ps : List PkgData) (id : Nat),
       ((c.refreshCache ps).fullname_of id) = c.fullname_of id) ∧
    (∀ (c : AptCacheM), c.id_to_fullname.Nodup →
       ∀ (i j : Nat) (fn : String),
         c.fullname_of i = some fn → c.fullname_of j = some fn → i = j) ∧
    (∀ (c : AptCacheM), c.id_to_fullname.Nodup →
       ∀ (fn : String) (id : Nat),
         (c.get_id fn = some id ↔ c.fullname_of id = some fn)) ∧
    (∀ (pkgs : List PkgData)
       (rfn : List (Option AptMark) → List (Option AptMark) × Option String),
       (pkgs.map (fun p => p.fullname)).Nodup →
       ((AptCacheM.new pkgs rfn).id_to_fullname).Nodup) ∧
    (∀ (c : AptCacheM) (fn : String), c.id_to_fullname.Nodup →
       (((c.id_for fn).1).id_to_fullname).Nodup) ∧
    (∀ (c : AptCacheM) (ps : List PkgData),
       (c.refreshCache ps).id_to_fullname = c.id_to_fullname) := by
  refine ⟨fun c ps id => rfl, ?_, ?_, ?_, ?_, fun c ps => rfl⟩
  · intro c hn i j fn h1 h2
    exact get?_inj_str _ i j fn hn h1 h2
  · intro c hn fn id
    constructor
    · intro h
      exact idxOfStr_get? fn _ id h
    · intro h
      exact idxOfStr_of_get? fn _ id hn h
  · intro pkgs rfn hn
    exact hn
  · intro c fn hn
    unfold AptCacheM.id_for
    cases h : idxOfStr fn c.id_to_fullname with
    | some id => exact hn
    | none =>
      simp only
      rw [List.nodup_append]
      exact ⟨hn, List.nodup_singleton fn, by
        intro a ha hb
        simp at hb
        rw [hb] at ha
        exact (idxOfStr_none fn c.id_to_fullname).mp h ha⟩

/-- C7 counterexample: packages present in the cache but not in the
registry (possible right after a refresh adds packages) are all given
the shared sentinel id `u32::MAX` in the list rows, so two distinct
packages share a PackageId and the claimed bijection over packages
fails. -/
theorem c7_sentinel_shared_id_counterexample :
    c7rows.map (fun r => (r.name, r.id)) =
      [("pkg-a", 0), ("new-b", u32MAX), ("new-c", u32MAX)] ∧
    ("new-b" : String) ≠ "new-c" ∧ u32MAX ≠ 0 :=
  ⟨by decide, by decide, by decide⟩

/-- Witness for C7 amended at the concrete two-package registry. -/
theorem c7_registry_bijection_refresh_safety_witness :
    (cW.id_to_fullname).Nodup ∧
    (cW.get_id "lib-x" = some 1 ↔ cW.fullname_of 1 = some "lib-x") :=
  ⟨by decide, c7_registry_bijection_refresh_safety.2.2.1 cW (by decide) "lib-x" 1⟩


/-! Toggle-engine lemmas and the C5 claim. -/

theorem eraseIntent_not_contains (l : Intent) (k : Nat)
    (h : containsIntent l k = false) : eraseIntent l k = l := by
  unfold eraseIntent
  apply List.filter_eq_self.mpr
  intro e he
  unfold containsIntent at h
  have := List.any_eq_false.mp h e he
  simpa [bne] using this

theorem unmark_intent_dp (s : MState) (id : Nat)
    (hdp : s.is_dirty = true ∨ s.is_planned = true) :
    (s.unmark id).intentOf = eraseIntent s.intentOf id ∧
    ((s.unmark id).is_dirty = true ∨ (s.unmark id).is_planned = true) := by
  unfold MState.unmark
  by_cases hu : s.is_user_marked id = true
  · rw [if_pos hu]
    cases s with
    | clean sh => rcases hdp with h | h <;> cases h
    | dirty sh => exact ⟨rfl, Or.inl rfl⟩
    | planned sh p => exact ⟨rfl, Or.inl rfl⟩
    | transitioning => rcases hdp with h | h <;> cases h
  · rw [if_neg hu]
    have hc : containsIntent s.intentOf id = false := by
      unfold MState.is_user_marked at hu
      simpa using hu
    exact ⟨(eraseIntent_not_contains _ _ hc).symm, hdp⟩

theorem fold_unmark_intent (ids : List Nat) :
    ∀ (s : MState), (s.is_dirty = true ∨ s.is_planned = true) →
    ((ids.foldl (fun st pid => st.unmark pid) s).intentOf =
       ids.foldl (fun i pid => eraseIntent i pid) s.intentOf) ∧
    (((ids.foldl (fun st pid => st.unmark pid) s)).is_dirty = true ∨
     ((ids.foldl (fun st pid => st.unmark pid) s)).is_planned = true) := by
  induction ids with
  | nil => intro s h; exact ⟨rfl, h⟩
  | cons x rest ih =>
    intro s h
    obtain ⟨h1, h2⟩ := unmark_intent_dp s x h
    obtain ⟨h3, h4⟩ := ih (s.unmark x) h2
    refine ⟨?_, h4⟩
    simp only [List.foldl_cons]
    rw [h3, h1]

theorem compute_plan_planned_of_dp (s : MState)
    (hdp : s.is_dirty = true ∨ s.is_planned = true) :
    (s.compute_plan).is_planned = true := by
  cases s with
  | clean sh => rcases hdp with h | h <;> cases h
  | dirty sh => rfl
  | planned sh p => rfl
  | transitioning => rcases hdp with h | h <;> cases h

theorem rebuild_is_planned (s : MState) (h : s.is_planned = true) :
    (s.rebuild_list).is_planned = true := by
  cases s with
  | planned sh p => rfl
  | clean sh => cases h
  | dirty sh => cases h
  | transitioning => cases h

theorem rebuild_list_idem (s : MState) :
    (s.rebuild_list).rebuild_list = s.rebuild_list := by
  cases s <;> rfl

theorem rowMarked_mem_markedIds (l : List PackageInfo) (id : Nat)
    (h : rowMarked l id = true) : (markedIdsOf l).contains id = true := by
  unfold rowMarked at h
  cases hf : l.find? (fun p => p.id == id) with
  | none => rw [hf] at h; cases h
  | some p =>
    rw [hf] at h
    have hmem : p ∈ l := List.mem_of_find?_eq_some hf
    have hid : p.id = id := by
      have := List.find?_some hf
      exact eq_of_beq this
    have : id ∈ markedIdsOf l := by
      unfold markedIdsOf
      exact List.mem_map.mpr ⟨p, List.mem_filter.mpr ⟨hmem, h⟩, hid⟩
    exact List.elem_iff.mpr this

theorem dirty_plan_shape (sh : Shared) :
    (MState.dirty sh).compute_plan = MState.planned (sh.plan).1 (sh.plan).2 := rfl

/-- C5: toggling a package that is marked in the plan but not in the
Intent store removes from the Intent store exactly the set R of intent
entries that transitively depend on it (Depends/PreDepends walk),
leaves a re-planned (Planned) manager; and when R is empty the result
is NoChange with the Intent store unchanged. -/
theorem c5_toggle_unmark_dependency (sh : Shared) (h : Nat)
    (hnotuser : containsIntent sh.user_intent h = false)
    (hmarked : rowMarked ((((MState.dirty sh).compute_plan).rebuild_list).listOf) h = true) :
    ((MState.dirty sh).toggle h).1.intentOf =
      ((((MState.dirty sh).compute_plan).rebuild_list).find_user_intent_depending_on h).foldl
        (fun i pid => eraseIntent i pid) sh.user_intent ∧
    ((MState.dirty sh).toggle h).1.is_planned = true ∧
    (((((MState.dirty sh).compute_plan).rebuild_list).find_user_intent_depending_on h) = [] →
       ((MState.dirty sh).toggle h).2 = ToggleResult.NoChange h ∧
       ((MState.dirty sh).toggle h).1.intentOf = sh.user_intent) := by
  have hs1intent : (((MState.dirty sh).compute_plan).rebuild_list).intentOf = sh.user_intent := by
    rw [rebuild_list_intent, compute_plan_intent]
    rfl
  have hs1planned : (((MState.dirty sh).compute_plan).rebuild_list).is_planned = true := by
    apply rebuild_is_planned
    exact compute_plan_planned_of_dp _ (Or.inl rfl)
  have hs1user : (((MState.dirty sh).compute_plan).rebuild_list).is_user_marked h = false := by
    unfold MState.is_user_marked
    rw [hs1intent]
    exact hnotuser
  -- unfold the toggle
  simp only [MState.toggle, MState.toggle_unmark, hmarked, if_true, hs1user,
    Bool.false_eq_true, ite_false, ite_true]
  set s1 := (((MState.dirty sh).compute_plan).rebuild_list) with hs1
  set R := s1.find_user_intent_depending_on h with hR
  obtain ⟨hfold, hdp⟩ := fold_unmark_intent R s1 (Or.inr hs1planned)
  have hfinal_planned :
      (((R.foldl (fun st pid => st.unmark pid) s1).compute_plan).rebuild_list).is_planned
        = true :=
    rebuild_is_planned _ (compute_plan_planned_of_dp _ hdp)
  have hfinal_intent :
      (((R.foldl (fun st pid => st.unmark pid) s1).compute_plan).rebuild_list).intentOf =
        R.foldl (fun i pid => eraseIntent i pid) sh.user_intent := by
    rw [rebuild_list_intent, compute_plan_intent, hfold, hs1intent]
  refine ⟨?_, ?_, ?_⟩
  · rw [apply_ite (fun x : MState × ToggleResult => x.1)]
    simp only [ite_self]
    exact hfinal_intent
  · rw [apply_ite (fun x : MState × ToggleResult => x.1)]
    simp only [ite_self]
    exact hfinal_planned
  · intro hRnil
    rw [hRnil]
    simp only [List.foldl_nil]
    have hplanfix : s1.compute_plan = s1 := by
      rw [hs1, dirty_plan_shape]
      rfl
    rw [hplanfix, rebuild_list_idem]
    have hcont : (markedIdsOf s1.listOf).contains h = true :=
      rowMarked_mem_markedIds s1.listOf h hmarked
    rw [hcont, if_pos rfl]
    exact ⟨rfl, hs1intent⟩

/-- Witness for C5: `lib-x` is marked purely by the solver, no intent
entry depends on it, and the toggle reports NoChange with the Intent
store untouched. -/
theorem c5_toggle_unmark_dependency_witness :
    containsIntent shC5w.user_intent 1 = false ∧
    rowMarked ((((MState.dirty shC5w).compute_plan).rebuild_list).listOf) 1 = true ∧
    (((MState.dirty shC5w).toggle 1).2 = ToggleResult.NoChange 1 ∧
     ((MState.dirty shC5w).toggle 1).1.intentOf = shC5w.user_intent) :=
  ⟨by decide, by decide, (c5_toggle_unmark_dependency shC5w 1 (by decide) (by decide)).2.2 (by decide)⟩

theorem containsIntent_false_iff (l : Intent) (h : Nat) :
    containsIntent l h = false ↔ h ∉ l.map (fun e => e.1) := by
  unfold containsIntent
  rw [List.any_eq_false]
  constructor
  · intro hf hmem
    obtain ⟨e, he, hk⟩ := List.mem_map.mp hmem
    have := hf e he
    rw [hk] at this
    simp at this
  · intro hf e he
    by_cases hk : (e.1 == h) = true
    · exact absurd (List.mem_map.mpr ⟨e, he, eq_of_beq hk⟩) hf
    · simpa using hk

theorem contains_erase_self (l : Intent) (h : Nat) :
    containsIntent (eraseIntent l h) h = false := by
  unfold eraseIntent containsIntent
  rw [List.any_eq_false]
  intro e he
  have := (List.mem_filter.mp he).2
  simp only [bne_iff_ne, ne_eq] at this
  simpa using this

theorem insert_into_erased (l : Intent) (h : Nat) (v : UserIntent) :
    insertIntent (eraseIntent l h) h v = eraseIntent l h ++ [(h, v)] := by
  unfold insertIntent
  rw [contains_erase_self]
  rfl

theorem NodupKeys_perm (l l2 : Intent) (hp : l.Perm l2) (h : NodupKeys l) : NodupKeys l2 := by
  unfold NodupKeys at h ⊢
  exact (hp.map (fun e => e.1)).nodup_iff.mp h

theorem contains_of_lookup (l : Intent) (k : Nat) (v : UserIntent)
    (h : lookupIntent l k = some v) : containsIntent l k = true := by
  unfold lookupIntent at h
  unfold containsIntent
  cases hf : l.find? (fun e => e.1 == k) with
  | none => rw [hf] at h; cases h
  | some e =>
    have hmem := List.mem_of_find?_eq_some hf
    have hk := List.find?_some hf
    exact List.any_eq_true.mpr ⟨e, hmem, hk⟩

theorem contains_keys_head (e : Nat × UserIntent) (rest : Intent)
    (hk : NodupKeys (e :: rest)) : containsIntent rest e.1 = false := by
  unfold NodupKeys at hk
  simp only [List.map_cons, List.nodup_cons] at hk
  exact (containsIntent_false_iff rest e.1).mpr hk.1

theorem perm_erase_append (l : Intent) (h : Nat) (v : UserIntent)
    (hk : NodupKeys l) (hl : lookupIntent l h = some v) :
    l.Perm (eraseIntent l h ++ [(h, v)]) := by
  induction l with
  | nil => cases hl
  | cons e rest ih =>
    by_cases he : (e.1 == h) = true
    · -- the head is the single entry for h
      have hev : e = (h, v) := by
        have h1 : e.1 = h := eq_of_beq he
        have h2 : e.2 = v := by
          unfold lookupIntent at hl
          simp only [List.find?, he, Option.map_some', Option.some.injEq] at hl
          exact hl
        cases e
        simp only at h1 h2
        rw [h1, h2]
      have hrest : eraseIntent (e :: rest) h = rest := by
        unfold eraseIntent
        simp only [List.filter]
        have hb : (e.1 != h) = false := by simp [eq_of_beq he]
        rw [hb]
        have hcr : containsIntent rest h = false := by
          have := contains_keys_head e rest hk
          rwa [eq_of_beq he] at this
        have := eraseIntent_not_contains rest h hcr
        unfold eraseIntent at this
        exact this
      rw [hrest, hev]
      exact List.perm_append_singleton (h, v) rest |>.symm
    · have hrest : eraseIntent (e :: rest) h = e :: eraseIntent rest h := by
        unfold eraseIntent
        simp only [List.filter]
        have hb : (e.1 != h) = true := by simpa using he
        rw [hb]
      have hlr : lookupIntent rest h = some v := by
        unfold lookupIntent at hl ⊢
        simp only [List.find?, he] at hl
        exact hl
      have hkr : NodupKeys rest := by
        unfold NodupKeys at hk ⊢
        simp only [List.map_cons, List.nodup_cons] at hk
        exact hk.2
      rw [hrest]
      exact List.Perm.cons e (ih hkr hlr)

theorem containsIntent_perm (l l2 : Intent) (hp : l.Perm l2) (k : Nat) :
    containsIntent l k = containsIntent l2 k := by
  unfold containsIntent
  apply Bool.eq_iff_iff.mpr
  simp only [List.any_eq_true]
  constructor
  · rintro ⟨e, he, hk⟩
    exact ⟨e, hp.mem_iff.mp he, hk⟩
  · rintro ⟨e, he, hk⟩
    exact ⟨e, hp.mem_iff.mpr he, hk⟩

theorem applyStep_eq (c : AptCacheM) (e : Nat × UserIntent) :
    (match e.2 with
     | UserIntent.Install => c.mark_install_id e.1
     | UserIntent.Remove => c.mark_delete_id e.1
     | UserIntent.Hold => c.mark_keep_id e.1
     | UserIntent.Default => c) =
    (match e.2, slotOf c e.1 with
     | UserIntent.Default, _ => c
     | _, none => c
     | v, some j => { c with marks := c.marks.set j (markForIntent v) }) := by
  unfold slotOf AptCacheM.mark_install_id AptCacheM.mark_delete_id AptCacheM.mark_keep_id
  unfold AptCacheM.mark_install AptCacheM.mark_delete AptCacheM.mark_keep AptCacheM.setMark
  cases hv : e.2 <;> cases hfn : c.fullname_of e.1 <;>
    simp only [Option.bind, Option.none_bind, Option.some_bind] <;>
    first
      | rfl
      | (cases hj : c.pkgIdx _ <;> simp only [markForIntent] <;> rfl)

theorem findPkgIdx_get? (name : String) :
    ∀ (l : List PkgData) (j : Nat), findPkgIdx name l = some j →
      ∃ p, l.get? j = some p ∧ p.fullname = name := by
  intro l
  induction l with
  | nil => intro j h; simp [findPkgIdx] at h
  | cons q rest ih =>
    intro j h
    by_cases hq : (q.fullname == name) = true
    · simp only [findPkgIdx, hq, if_true, ite_true, Option.some.injEq] at h
      subst h
      exact ⟨q, rfl, eq_of_beq hq⟩
    · simp only [findPkgIdx, hq, Bool.false_eq_true, ite_false, Option.map_eq_some'] at h
      obtain ⟨j0, hj0, hj⟩ := h
      subst hj
      obtain ⟨p, hp1, hp2⟩ := ih j0 hj0
      exact ⟨p, by simpa [List.get?] using hp1, hp2⟩

theorem slotOf_inj (c : AptCacheM) (hreg : c.id_to_fullname.Nodup)
    (i1 i2 j : Nat) (h1 : slotOf c i1 = some j) (h2 : slotOf c i2 = some j) : i1 = i2 := by
  unfold slotOf at h1 h2
  cases hf1 : c.fullname_of i1 with
  | none => rw [hf1] at h1; cases h1
  | some fn1 =>
    rw [hf1] at h1
    simp only [Option.some_bind] at h1
    cases hf2 : c.fullname_of i2 with
    | none => rw [hf2] at h2; cases h2
    | some fn2 =>
      rw [hf2] at h2
      simp only [Option.some_bind] at h2
      obtain ⟨p1, hp1, hn1⟩ := findPkgIdx_get? fn1 c.pkgs j h1
      obtain ⟨p2, hp2, hn2⟩ := findPkgIdx_get? fn2 c.pkgs j h2
      have hpe : p1 = p2 := by
        rw [hp1] at hp2
        exact Option.some.inj hp2
      have hfe : fn1 = fn2 := by rw [← hn1, ← hn2, hpe]
      exact get?_inj_str c.id_to_fullname i1 i2 fn1 hreg hf1 (hfe ▸ hf2)

theorem slotOf_congr (c c2 : AptCacheM) (hr : c2.id_to_fullname = c.id_to_fullname)
    (hp : c2.pkgs = c.pkgs) (k : Nat) : slotOf c2 k = slotOf c k := by
  unfold slotOf AptCacheM.fullname_of AptCacheM.pkgIdx
  rw [hr, hp]

theorem applyUserIntent_eq_foldl (c : AptCacheM) (i : Intent) :
    applyUserIntent c i = i.foldl applyOneIntent c := rfl

theorem applyOneIntent_marks (c : AptCacheM) (e : Nat × UserIntent) :
    applyOneIntent c e = { c with marks := applyMarks c.marks (slotOf c e.1) e.2 } := by
  unfold applyOneIntent slotOf applyMarks
  unfold AptCacheM.mark_install_id AptCacheM.mark_delete_id AptCacheM.mark_keep_id
  unfold AptCacheM.mark_install AptCacheM.mark_delete AptCacheM.mark_keep AptCacheM.setMark
  cases hv : e.2 <;> cases hfn : c.fullname_of e.1 <;>
    simp only [Option.none_bind, Option.some_bind] <;>
    first
      | rfl
      | (cases hj : c.pkgIdx _ <;> simp only [markForIntent] <;> rfl)

theorem applyOneIntent_fields (c : AptCacheM) (e : Nat × UserIntent) :
    (applyOneIntent c e).pkgs = c.pkgs ∧
    (applyOneIntent c e).id_to_fullname = c.id_to_fullname := by
  rw [applyOneIntent_marks]
  exact ⟨rfl, rfl⟩

theorem applyMarks_comm (m : List (Option AptMark)) (s1 s2 : Option Nat)
    (v1 v2 : UserIntent) (hne : ∀ j, s1 = some j → s2 = some j → False) :
    applyMarks (applyMarks m s1 v1) s2 v2 = applyMarks (applyMarks m s2 v2) s1 v1 := by
  cases v1 <;> cases v2 <;> cases s1 <;> cases s2 <;>
    simp only [applyMarks] <;>
    first
      | rfl
      | (rename_i j1 j2
         exact List.set_comm _ _ m (fun he => hne j2 (by rw [he]) rfl))

theorem applyOneIntent_comm (c : AptCacheM) (hreg : c.id_to_fullname.Nodup)
    (e1 e2 : Nat × UserIntent) (hne : e1.1 ≠ e2.1) :
    applyOneIntent (applyOneIntent c e1) e2 = applyOneIntent (applyOneIntent c e2) e1 := by
  have hf1 := applyOneIntent_fields c e1
  have hf2 := applyOneIntent_fields c e2
  have hs1 : slotOf (applyOneIntent c e2) e1.1 = slotOf c e1.1 :=
    slotOf_congr c _ hf2.2 hf2.1 e1.1
  have hs2 : slotOf (applyOneIntent c e1) e2.1 = slotOf c e2.1 :=
    slotOf_congr c _ hf1.2 hf1.1 e2.1
  rw [applyOneIntent_marks (applyOneIntent c e1) e2,
      applyOneIntent_marks (applyOneIntent c e2) e1, hs1, hs2,
      applyOneIntent_marks c e1, applyOneIntent_marks c e2]
  simp only
  have hmm : applyMarks (applyMarks c.marks (slotOf c e1.1) e1.2) (slotOf c e2.1) e2.2 =
      applyMarks (applyMarks c.marks (slotOf c e2.1) e2.2) (slotOf c e1.1) e1.2 := by
    apply applyMarks_comm
    intro j hj1 hj2
    exact hne (slotOf_inj c hreg e1.1 e2.1 j hj1 hj2)
  rw [hmm]

theorem foldl_applyOne_perm (i i2 : Intent) (hp : i.Perm i2) :
    NodupKeys i → ∀ (c : AptCacheM), c.id_to_fullname.Nodup →
    i.foldl applyOneIntent c = i2.foldl applyOneIntent c := by
  induction hp with
  | nil => intro _ c _; rfl
  | cons x p ih =>
    rename_i l1 l2
    intro hk c hreg
    simp only [List.foldl_cons]
    have hk2 : NodupKeys l1 := by
      unfold NodupKeys at hk ⊢
      simp only [List.map_cons, List.nodup_cons] at hk
      exact hk.2
    have hreg2 : (applyOneIntent c x).id_to_fullname.Nodup := by
      rw [(applyOneIntent_fields c x).2]
      exact hreg
    exact ih hk2 (applyOneIntent c x) hreg2
  | swap x y l =>
    intro hk c hreg
    simp only [List.foldl_cons]
    have hne : y.1 ≠ x.1 := by
      unfold NodupKeys at hk
      simp only [List.map_cons, List.nodup_cons, List.mem_cons] at hk
      exact fun he => hk.1 (Or.inl he)
    rw [applyOneIntent_comm c hreg y x hne]
  | trans h12 _h23 ih1 ih2 =>
    intro hk c hreg
    exact (ih1 hk c hreg).trans (ih2 (NodupKeys_perm _ _ h12 hk) c hreg)

theorem planLoop_contains_congr (i i2 : Intent)
    (hc : ∀ k, containsIntent i k = containsIntent i2 k) :
    ∀ (es : List ChangeEntry) (c : AptCacheM),
      planLoop c i es = planLoop c i2 es := by
  intro es
  induction es with
  | nil => intro c; rfl
  | cons e rest ih =>
    intro c
    simp only [planLoop, hc, ih]

theorem AptCacheM.ext4 (a b : AptCacheM) (h1 : a.pkgs = b.pkgs)
    (h2 : a.id_to_fullname = b.id_to_fullname) (h3 : a.marks = b.marks)
    (h4 : a.resolveFn = b.resolveFn) : a = b := by
  cases a
  cases b
  simp only at h1 h2 h3 h4
  rw [h1, h2, h3, h4]

theorem clear_all_marks_of_len (c : AptCacheM) (m2 : List (Option AptMark))
    (hlen : m2.length = c.marks.length) :
    ({ c with marks := m2 } : AptCacheM).clear_all_marks = c.clear_all_marks := by
  unfold AptCacheM.clear_all_marks
  simp only
  rw [List.map_const', List.map_const', hlen]

theorem applyUserIntent_marks_len (i : Intent) :
    ∀ (c : AptCacheM), (applyUserIntent c i).marks.length = c.marks.length := by
  induction i with
  | nil => intro c; rfl
  | cons e rest ih =>
    intro c
    simp only [applyUserIntent_eq_foldl] at ih ⊢
    simp only [List.foldl_cons]
    rw [ih (applyOneIntent c e), applyOneIntent_marks]
    simp only
    unfold applyMarks
    cases e.2 <;> cases slotOf c e.1 <;> simp [List.length_set]

theorem resolvedCache_rf (c : AptCacheM) (i : Intent) :
    (resolvedCache c i).resolveFn = c.resolveFn := by
  unfold resolvedCache
  simp only
  exact (applyUserIntent_fields i c.clear_all_marks).2.2

theorem resolvedCache_congr (c : AptCacheM) (m2 : List (Option AptMark))
    (hlen : m2.length = c.marks.length) (hreg : c.id_to_fullname.Nodup)
    (i i2 : Intent) (hk : NodupKeys i) (hp : i.Perm i2) :
    resolvedCache ({ c with marks := m2 } : AptCacheM) i2 = resolvedCache c i ∧
    resolveErrors ({ c with marks := m2 } : AptCacheM) i2 = resolveErrors c i := by
  have hclear := clear_all_marks_of_len c m2 hlen
  have happ : applyUserIntent (({ c with marks := m2 } : AptCacheM).clear_all_marks) i2 =
      applyUserIntent c.clear_all_marks i := by
    rw [hclear]
    rw [applyUserIntent_eq_foldl, applyUserIntent_eq_foldl]
    have hregc : (c.clear_all_marks).id_to_fullname.Nodup := hreg
    exact (foldl_applyOne_perm i i2 hp hk c.clear_all_marks hregc).symm
  constructor
  · unfold resolvedCache
    rw [happ]
  · unfold resolveErrors
    rw [happ]

theorem idxOfStr_isSome_of_mem (fn : String) (l : List String) (h : fn ∈ l) :
    ∃ j, idxOfStr fn l = some j := by
  cases hx : idxOfStr fn l with
  | none => exact absurd h ((idxOfStr_none fn l).mp hx)
  | some j => exact ⟨j, rfl⟩

theorem id_for_self_of_mem (c : AptCacheM) (fn : String) (h : fn ∈ c.id_to_fullname) :
    (c.id_for fn).1 = c := by
  obtain ⟨j, hj⟩ := idxOfStr_isSome_of_mem fn _ h
  unfold AptCacheM.id_for
  rw [hj]

theorem planLoop_cache_id (i : Intent) :
    ∀ (es : List ChangeEntry) (c : AptCacheM),
      (∀ e ∈ es, e.fullname ∈ c.id_to_fullname) → (planLoop c i es).1 = c := by
  intro es
  induction es with
  | nil => intro c _; rfl
  | cons e rest ih =>
    intro c hcov
    have hfix : (c.id_for e.fullname).1 = c :=
      id_for_self_of_mem c e.fullname (hcov e (List.mem_cons_self e rest))
    have hrest : ∀ e2 ∈ rest, e2.fullname ∈ ((c.id_for e.fullname).1).id_to_fullname := by
      rw [hfix]
      exact fun e2 he2 => hcov e2 (List.mem_cons_of_mem e he2)
    simp only [planLoop]
    split
    · rw [ih _ hrest, hfix]
    · show (planLoop (c.id_for e.fullname).1 i rest).1 = c
      rw [ih _ hrest, hfix]

theorem changeData_fullname_mem (c : AptCacheM) (e : ChangeEntry)
    (he : e ∈ changeData c) : ∃ p ∈ c.pkgs, e.fullname = p.fullname := by
  obtain ⟨pm, hpm, hfn, _⟩ := changeData_mem c e he
  exact ⟨pm.1, get_changes_pkg_mem c pm hpm, hfn⟩

theorem planFromCache_cache (c : AptCacheM) (i : Intent)
    (hcov : ∀ p ∈ c.pkgs, p.fullname ∈ c.id_to_fullname) :
    (planFromCache c i).1 = resolvedCache c i := by
  unfold planFromCache
  simp only
  apply planLoop_cache_id
  intro e he
  obtain ⟨p, hp, hfn⟩ := changeData_fullname_mem _ e he
  rw [hfn, resolvedCache_reg]
  apply hcov
  rw [← resolvedCache_pkgs c i]
  exact hp

theorem clear_all_marks_len (c : AptCacheM) :
    (c.clear_all_marks).marks.length = c.marks.length := by
  unfold AptCacheM.clear_all_marks
  simp

theorem resolvedCache_marks_len (c : AptCacheM) (i : Intent)
    (hrl : ∀ m, ((c.resolveFn m).1).length = m.length) :
    (resolvedCache c i).marks.length = c.marks.length := by
  unfold resolvedCache
  simp only
  have hrf : (applyUserIntent c.clear_all_marks i).resolveFn = c.resolveFn :=
    (applyUserIntent_fields i c.clear_all_marks).2.2
  rw [hrf, hrl, applyUserIntent_marks_len, clear_all_marks_len]

theorem resolvedCache_shape (c : AptCacheM) (i : Intent) :
    resolvedCache c i = { c with marks := (resolvedCache c i).marks } := by
  apply AptCacheM.ext4
  · exact resolvedCache_pkgs c i
  · exact resolvedCache_reg c i
  · rfl
  · exact resolvedCache_rf c i

theorem planFromCache_shape (c : AptCacheM) (i : Intent)
    (hcov : ∀ p ∈ c.pkgs, p.fullname ∈ c.id_to_fullname)
    (hrl : ∀ m, ((c.resolveFn m).1).length = m.length) :
    (planFromCache c i).1 = { c with marks := ((planFromCache c i).1).marks } ∧
    ((planFromCache c i).1).marks.length = c.marks.length := by
  rw [planFromCache_cache c i hcov]
  exact ⟨resolvedCache_shape c i, resolvedCache_marks_len c i hrl⟩

theorem planFromCache_payload_congr (c : AptCacheM) (m2 : List (Option AptMark))
    (hlen : m2.length = c.marks.length) (hreg : c.id_to_fullname.Nodup)
    (i i2 : Intent) (hk : NodupKeys i) (hp : i.Perm i2) :
    (planFromCache ({ c with marks := m2 } : AptCacheM) i2).2 = (planFromCache c i).2 := by
  obtain ⟨hc, he⟩ := resolvedCache_congr c m2 hlen hreg i i2 hk hp
  unfold planFromCache
  rw [hc, he]
  have hloop := planLoop_contains_congr i i2
    (fun k => containsIntent_perm i i2 hp k) (changeData (resolvedCache c i))
    (resolvedCache c i)
  rw [← hloop]

theorem compute_plan_fix_planned (s : MState) (h : s.is_planned = true) :
    s.compute_plan = s := by
  cases s with
  | planned sh p => rfl
  | clean sh => cases h
  | dirty sh => cases h
  | transitioning => cases h

theorem rowMarked_false_of_not_mem (l : List PackageInfo) (id : Nat)
    (h : (markedIdsOf l).contains id = false) : rowMarked l id = false := by
  by_cases hr : rowMarked l id = true
  · rw [rowMarked_mem_markedIds l id hr] at h
    simp at h
  · simpa using hr

theorem dirty_plan_rebuild_shape (sh : Shared) :
    ((MState.dirty sh).compute_plan).rebuild_list =
      MState.planned
        { ((sh.plan).1).rebuild_list with
          list := applyPlannedStatuses (sh.plan).2 (((sh.plan).1).rebuild_list).list }
        (sh.plan).2 := rfl

theorem unmark_planned_user (shp : Shared) (p : PlannedPayload) (h : Nat)
    (hcont : containsIntent shp.user_intent h = true) :
    (MState.planned shp p).unmark h =
      MState.dirty { shp with user_intent := eraseIntent shp.user_intent h } := by
  unfold MState.unmark
  have hu : (MState.planned shp p).is_user_marked h = true := hcont
  rw [if_pos hu]

theorem mark_install_planned (shp : Shared) (p : PlannedPayload) (h : Nat) :
    (MState.planned shp p).mark_install h =
      MState.dirty (shp.insertMark h UserIntent.Install) := rfl

theorem toggle_mark_snd (sh : Shared) (h : Nat)
    (hrow : rowMarked ((((MState.dirty sh).compute_plan).rebuild_list).listOf) h = false) :
    ∃ la, ((MState.dirty sh).toggle h).2 = ToggleResult.Marked h la := by
  simp only [MState.toggle, hrow, Bool.false_eq_true, ite_false, MState.toggle_mark_impl]
  exact ⟨_, rfl⟩

theorem toggle_unmark_user_fst (sh : Shared) (h : Nat)
    (hrow : rowMarked ((((MState.dirty sh).compute_plan).rebuild_list).listOf) h = true)
    (hu : (((MState.dirty sh).compute_plan).rebuild_list).is_user_marked h = true) :
    ((MState.dirty sh).toggle h).1 =
      (((((MState.dirty sh).compute_plan).rebuild_list).unmark h).compute_plan).rebuild_list := by
  simp only [MState.toggle, hrow, if_true, ite_true, MState.toggle_unmark, hu,
    List.foldl_cons, List.foldl_nil]
  rw [apply_ite (fun x : MState × ToggleResult => x.1)]
  simp only [ite_self]

theorem toggle_unmark_user_snd_nc (sh : Shared) (h : Nat)
    (hrow : rowMarked ((((MState.dirty sh).compute_plan).rebuild_list).listOf) h = true)
    (hu : (((MState.dirty sh).compute_plan).rebuild_list).is_user_marked h = true)
    (hnc : (markedIdsOf
        ((((((MState.dirty sh).compute_plan).rebuild_list).unmark h).compute_plan).rebuild_list).listOf).contains h
      = true) :
    ((MState.dirty sh).toggle h).2 = ToggleResult.NoChange h := by
  simp only [MState.toggle, hrow, if_true, ite_true, MState.toggle_unmark, hu,
    List.foldl_cons, List.foldl_nil, hnc]

theorem toggle_not_marked_fst (s : MState) (h : Nat)
    (hpf : s.compute_plan = s) (hri : s.rebuild_list = s)
    (hrow : rowMarked s.listOf h = false) :
    (s.toggle h).1 = ((s.mark_install h).compute_plan).rebuild_list := by
  simp only [MState.toggle, hpf, hri, hrow, Bool.false_eq_true, ite_false,
    MState.toggle_mark_impl]

theorem planFromCache_shape_of_eq (c0 c : AptCacheM) (m : List (Option AptMark))
    (hc : c = { c0 with marks := m }) (hlen : m.length = c0.marks.length)
    (hcov : ∀ p ∈ c0.pkgs, p.fullname ∈ c0.id_to_fullname)
    (hrl : ∀ mm, ((c0.resolveFn mm).1).length = mm.length) (i : Intent) :
    (planFromCache c i).1 = { c0 with marks := ((planFromCache c i).1).marks } ∧
    ((planFromCache c i).1).marks.length = c0.marks.length := by
  subst hc
  have hcov2 : ∀ p ∈ ({ c0 with marks := m } : AptCacheM).pkgs,
      p.fullname ∈ ({ c0 with marks := m } : AptCacheM).id_to_fullname := hcov
  have hrl2 : ∀ mm,
      ((({ c0 with marks := m } : AptCacheM).resolveFn mm).1).length = mm.length := hrl
  obtain ⟨h1, h2⟩ := planFromCache_shape ({ c0 with marks := m } : AptCacheM) i hcov2 hrl2
  exact ⟨h1, h2.trans hlen⟩

/-- C6 amended: on a well-formed manager (registry without duplicates
covering every cache package, length-preserving resolver, HashMap-valid
intent store), toggle is involutive for a handle the user marked
Install when the first toggle reports Unmarked: the planned changeset
after toggle(h); toggle(h) equals the changeset plan() computes from
the original intent.  The restriction to Install marks is necessary:
re-marking always goes through mark_install (core.rs 1051-1069), so a
Remove mark comes back as an install/upgrade (see the
counterexample). -/
theorem c6_toggle_involutive_install (sh : Shared) (h : Nat)
    (hreg : sh.cache.id_to_fullname.Nodup)
    (hcov : ∀ p ∈ sh.cache.pkgs, p.fullname ∈ sh.cache.id_to_fullname)
    (hrl : ∀ m, ((sh.cache.resolveFn m).1).length = m.length)
    (hkeys : NodupKeys sh.user_intent)
    (hInstall : lookupIntent sh.user_intent h = some UserIntent.Install)
    (hfirst : ∃ la, ((MState.dirty sh).toggle h).2 = ToggleResult.Unmarked h la) :
    (((MState.dirty sh).toggle h).1.toggle h).1.planned_changes =
      ((MState.dirty sh).compute_plan).planned_changes := by
  have hcont0 : containsIntent sh.user_intent h = true :=
    contains_of_lookup sh.user_intent h UserIntent.Install hInstall
  have hu1 : (((MState.dirty sh).compute_plan).rebuild_list).is_user_marked h = true := by
    unfold MState.is_user_marked
    rw [rebuild_list_intent, compute_plan_intent]
    exact hcont0
  have hrow : rowMarked ((((MState.dirty sh).compute_plan).rebuild_list).listOf) h = true := by
    by_cases hr : rowMarked ((((MState.dirty sh).compute_plan).rebuild_list).listOf) h = true
    · exact hr
    · exfalso
      obtain ⟨la, hla⟩ := hfirst
      rw [Bool.not_eq_true] at hr
      obtain ⟨lm, hlm⟩ := toggle_mark_snd sh h hr
      rw [hlm] at hla
      cases hla
  have htog1 : ((MState.dirty sh).toggle h).1 =
      (((((MState.dirty sh).compute_plan).rebuild_list).unmark h).compute_plan).rebuild_list :=
    toggle_unmark_user_fst sh h hrow hu1
  have hafter : (markedIdsOf
      ((((((MState.dirty sh).compute_plan).rebuild_list).unmark h).compute_plan).rebuild_list).listOf).contains h
      = false := by
    by_cases hc : (markedIdsOf
        ((((((MState.dirty sh).compute_plan).rebuild_list).unmark h).compute_plan).rebuild_list).listOf).contains h
        = true
    · exfalso
      obtain ⟨la, hla⟩ := hfirst
      rw [toggle_unmark_user_snd_nc sh h hrow hu1 hc] at hla
      cases hla
    · simpa using hc
  have hunm : (((MState.dirty sh).compute_plan).rebuild_list).unmark h =
      MState.dirty
        { ((sh.plan).1).rebuild_list with
          list := applyPlannedStatuses (sh.plan).2 (((sh.plan).1).rebuild_list).list,
          user_intent := eraseIntent sh.user_intent h } := by
    rw [dirty_plan_rebuild_shape sh]
    exact unmark_planned_user
      { ((sh.plan).1).rebuild_list with
        list := applyPlannedStatuses (sh.plan).2 (((sh.plan).1).rebuild_list).list }
      (sh.plan).2 h hcont0
  rw [hunm] at hafter
  -- the state after the first toggle, in dirty-plan-rebuild form
  have hpf2 : ((((MState.dirty
      { ((sh.plan).1).rebuild_list with
        list := applyPlannedStatuses (sh.plan).2 (((sh.plan).1).rebuild_list).list,
        user_intent := eraseIntent sh.user_intent h }).compute_plan).rebuild_list)).compute_plan =
      (((MState.dirty
      { ((sh.plan).1).rebuild_list with
        list := applyPlannedStatuses (sh.plan).2 (((sh.plan).1).rebuild_list).list,
        user_intent := eraseIntent sh.user_intent h }).compute_plan).rebuild_list) := by
    apply compute_plan_fix_planned
    exact rebuild_is_planned _ (compute_plan_planned_of_dp _ (Or.inl rfl))
  have hri2 := rebuild_list_idem ((MState.dirty
      { ((sh.plan).1).rebuild_list with
        list := applyPlannedStatuses (sh.plan).2 (((sh.plan).1).rebuild_list).list,
        user_intent := eraseIntent sh.user_intent h }).compute_plan)
  have hrow2 : rowMarked ((((MState.dirty
      { ((sh.plan).1).rebuild_list with
        list := applyPlannedStatuses (sh.plan).2 (((sh.plan).1).rebuild_list).list,
        user_intent := eraseIntent sh.user_intent h }).compute_plan).rebuild_list)).listOf h
      = false :=
    rowMarked_false_of_not_mem _ _ hafter
  have htog2 := toggle_not_marked_fst
    (((MState.dirty
      { ((sh.plan).1).rebuild_list with
        list := applyPlannedStatuses (sh.plan).2 (((sh.plan).1).rebuild_list).list,
        user_intent := eraseIntent sh.user_intent h }).compute_plan).rebuild_list) h
    hpf2 hri2 hrow2
  rw [htog1, hunm, htog2]
  -- both sides are plan payload changes; reduce to the payload congruence
  show some ((planFromCache
      (planFromCache (planFromCache sh.cache sh.user_intent).1 (eraseIntent sh.user_intent h)).1
      (insertIntent (eraseIntent sh.user_intent h) h UserIntent.Install)).2).changes =
    some ((planFromCache sh.cache sh.user_intent).2).changes
  have hshA := planFromCache_shape sh.cache sh.user_intent hcov hrl
  have hshB := planFromCache_shape_of_eq sh.cache (planFromCache sh.cache sh.user_intent).1
      ((planFromCache sh.cache sh.user_intent).1).marks hshA.1 hshA.2 hcov hrl
      (eraseIntent sh.user_intent h)
  have hperm : sh.user_intent.Perm
      (insertIntent (eraseIntent sh.user_intent h) h UserIntent.Install) := by
    rw [insert_into_erased]
    exact perm_erase_append sh.user_intent h UserIntent.Install hkeys hInstall
  have hpayload : (planFromCache
      (planFromCache (planFromCache sh.cache sh.user_intent).1 (eraseIntent sh.user_intent h)).1
      (insertIntent (eraseIntent sh.user_intent h) h UserIntent.Install)).2 =
      (planFromCache sh.cache sh.user_intent).2 := by
    rw [hshB.1]
    exact planFromCache_payload_congr sh.cache _ hshB.2 hreg sh.user_intent _ hkeys hperm
  rw [hpayload]


/-- C6 counterexample: on a reachable Planned manager whose only
user mark is a Remove on the installed `pkg-a`, toggling the handle
twice does not return to the original planned changeset: the second
toggle re-marks via `mark_install`, so the Remove becomes an
Upgrade. -/
theorem c6_toggle_not_involutive_counterexample :
    ∃ s : MState, Reachable [pkgA] rfId s ∧ s.is_user_marked 0 = true ∧
      s.planned_changes ≠ none ∧
      (((s.toggle 0).1.toggle 0).1).planned_changes ≠ s.planned_changes := by
  refine ⟨stepOp (stepOp (stepOp (MState.init [pkgA] rfId)
      (Op.applyFilterOp FilterCategory.All)) (Op.markRemoveOp 0)) Op.computePlanOp,
    ?_, ?_, ?_, ?_⟩
  · exact Reachable.step _ _ (Reachable.step _ _ (Reachable.step _ _ Reachable.init))
  · decide
  · decide
  · decide

/-- Witness for C6: on the one-package cache with an Install intent on
`pkg-a`, the first toggle unmarks, and the changeset after
toggle-twice equals the one plan() computes from the original
intent. -/
theorem c6_toggle_involutive_install_witness :
    (((MState.dirty shC6w).toggle 0).1.toggle 0).1.planned_changes =
      ((MState.dirty shC6w).compute_plan).planned_changes :=
  c6_toggle_involutive_install shC6w 0 (by decide) (by decide) (fun m => rfl)
    (by unfold NodupKeys; decide) (by decide) ⟨[], by decide⟩

end Synaptic
